import Mathlib

/-!
# Drive session management (`app/bg/hyper/drives.js`)

A shallow embedding of the helpers and operations of `drives.js`:
the key/URL normaliser (`fromURLToKey`, `fromKeyToURL`), the metadata
comparison (`isUrlsEq`, `hasMetaChanged`), the metadata synchroniser
(`pullLatestDriveMeta`), the single-flight loader (`loadDrive`), the checkout
resolver (`getDriveCheckout`) and the manifest construction of `forkDrive`.

JavaScript strings are lists of characters. Asynchronous calls into the
daemon, the meta store and the name resolver are represented by their
outcomes, supplied as environment records, and the calls that the code makes
are recorded in effect logs.
-/

set_option autoImplicit false

namespace Drives

/-! ## JavaScript values -/

/-- A JavaScript string, as its sequence of characters. -/
abbrev Str := List Char

/-- JavaScript values as far as `drives.js` inspects them. `num` holds an
integral number, of a magnitude that a number value represents exactly (below
2 ^ 53); `obj` is any non-primitive value, with its reference identity
and the string that `String(value)` yields for it. -/
inductive JsVal where
  | undefined
  | null
  | bool (b : Bool)
  | num (n : Int)
  | str (s : Str)
  | obj (ref : Nat) (image : Str)
  deriving DecidableEq

/-- An object literal: own enumerable properties in insertion order. -/
abbrev JsObj := List (Str × JsVal)

/-- Truthiness (`ToBoolean`). -/
def truthy : JsVal → Bool
  | .undefined => false
  | .null => false
  | .bool b => b
  | .num n => n != 0
  | .str s => !s.isEmpty
  | .obj _ _ => true

/-- The `typeof` operator. -/
def typeOf : JsVal → Str
  | .undefined => "undefined".toList
  | .null => "object".toList
  | .bool _ => "boolean".toList
  | .num _ => "number".toList
  | .str _ => "string".toList
  | .obj _ _ => "object".toList

/-- Strict equality `===`: primitives by value, objects by reference. -/
def strictEq : JsVal → JsVal → Bool
  | .undefined, .undefined => true
  | .null, .null => true
  | .bool a, .bool b => a == b
  | .num a, .num b => a == b
  | .str a, .str b => a == b
  | .obj r _, .obj s _ => r == s
  | _, _ => false

/-- String conversion `ToString`, as applied by `RegExp.prototype.exec`,
`parseInt` and string concatenation. -/
def toJsString : JsVal → Str
  | .undefined => "undefined".toList
  | .null => "null".toList
  | .bool true => "true".toList
  | .bool false => "false".toList
  | .num n => (toString n).toList
  | .str s => s
  | .obj _ image => image

/-- Names that every object literal inherits from `Object.prototype`; reading
one of them from an object that has no own property of that name yields a
function or object, which is truthy. -/
def objectPrototypeKeys : List Str :=
  ["constructor", "__defineGetter__", "__defineSetter__", "hasOwnProperty",
   "__lookupGetter__", "__lookupSetter__", "isPrototypeOf", "propertyIsEnumerable",
   "toString", "valueOf", "__proto__", "toLocaleString"].map String.toList

/-- Own property lookup. -/
def getOwn : JsObj → Str → Option JsVal
  | [], _ => none
  | (k, v) :: rest, name => if k = name then some v else getOwn rest name

/-- Property read `o[name]` on an object literal: own property first, then
`Object.prototype`, else `undefined`. -/
def getProp (o : JsObj) (name : Str) : JsVal :=
  match getOwn o name with
  | some v => v
  | none => if name ∈ objectPrototypeKeys then .obj 0 "function".toList else .undefined

/-- Property write `o[name] = v`: replaces an own property in place, else
appends a new one. -/
def setProp : JsObj → Str → JsVal → JsObj
  | [], name, v => [(name, v)]
  | (k, w) :: rest, name, v =>
    if k = name then (k, v) :: rest else (k, w) :: setProp rest name v

/-! ## Character classes and the two hash patterns -/

/-- A character of `[0-9a-f]`. -/
def isLowerHex (c : Char) : Bool :=
  (48 ≤ c.toNat && c.toNat ≤ 57) || (97 ≤ c.toNat && c.toNat ≤ 102)

/-- A character of `[0-9a-f]` under the `i` flag, that is `[0-9a-fA-F]`. -/
def isHexChar (c : Char) : Bool :=
  isLowerHex c || (65 ≤ c.toNat && c.toNat ≤ 70)

/-- Modelled from the spec: `HYPERDRIVE_HASH_REGEX` of `lib/const` is not in
the sources at hand; the spec gives key validity as exactly 64 lowercase
hexadecimal characters. This is `HYPERDRIVE_HASH_REGEX.test(s)`. -/
def HYPERDRIVE_HASH_REGEX (s : Str) : Bool :=
  s.length == 64 && s.all isLowerHex

/-- Leftmost run of `n` characters satisfying `p`: the first capture group of
an unanchored pattern `(C{n})`, or `none` when `exec` returns `null`. -/
def firstRun (p : Char → Bool) (n : Nat) : Str → Option Str
  | [] => if n = 0 then some [] else none
  | c :: cs =>
    if n ≤ ((c :: cs).takeWhile p).length then some ((c :: cs).take n)
    else firstRun p n cs

/-- The pattern `isUrlsEqRe = /([0-9a-f]{64})/i`: `exec(s)[1]`. -/
def isUrlsEqRe (s : Str) : Option Str :=
  firstRun isHexChar 64 s

/-! ## Errors and key arguments -/

/-- Exceptions raised by the module, and failures of its collaborators. -/
inductive DriveError where
  | invalidURL (msg : Str)
  | timeout (msg : Str)
  | error (msg : Str)
  | rejected (reason : Str)
  deriving DecidableEq

/-- What callers pass for a drive: a raw key `Buffer` or a string (hex key or
URL). -/
inductive KeyArg where
  | buf (bytes : List (Fin 256))
  | str (s : Str)
  deriving DecidableEq

/-! ## `dat-encoding` (npm dependency) -/

/-- Digit `d < 16` of the lowercase hexadecimal alphabet. -/
def hexDigit (d : Nat) : Char :=
  if d < 10 then Char.ofNat (48 + d) else Char.ofNat (87 + d)

/-- Value of a hexadecimal digit of either case. -/
def hexValue (c : Char) : Nat :=
  if c.toNat ≤ 57 then c.toNat - 48
  else if c.toNat ≤ 70 then c.toNat - 55
  else c.toNat - 87

/-- The call `buf.toString('hex')`. -/
def toHex : List (Fin 256) → Str
  | [] => []
  | b :: bs => hexDigit (b.val / 16) :: hexDigit (b.val % 16) :: toHex bs

/-- The call `Buffer.from(s, 'hex')` on a string of hexadecimal digits. -/
def fromHex : Str → List (Fin 256)
  | hi :: lo :: rest =>
    ⟨(hexValue hi * 16 + hexValue lo) % 256, Nat.mod_lt _ (by decide)⟩ :: fromHex rest
  | _ => []

/-- The pattern `/([a-f0-9]{64,65})/i` of `dat-encoding`: the leftmost run of
at least 64 hexadecimal digits, greedily extended to 65. -/
def keyRun : Str → Option Str
  | [] => none
  | c :: cs =>
    if 64 ≤ ((c :: cs).takeWhile isHexChar).length then
      some (((c :: cs).takeWhile isHexChar).take 65)
    else keyRun cs

/-- The function `encode` of `dat-encoding` on a buffer. -/
def encodeBuf (b : List (Fin 256)) : Except DriveError Str :=
  if b.length ≠ 32 then .error (.error "Invalid buffer".toList) else .ok (toHex b)

/-- The function `decode` of `dat-encoding` on a string. -/
def decodeStr (s : Str) : Except DriveError (List (Fin 256)) :=
  match keyRun s with
  | none => .error (.error "Invalid key".toList)
  | some m => if m.length ≠ 64 then .error (.error "Invalid key".toList) else .ok (fromHex m)

/-- The function `datEncoding.toStr`. -/
def datEncoding.toStr : KeyArg → Except DriveError Str
  | .str s => decodeStr s >>= encodeBuf
  | .buf b => encodeBuf b

/-- The function `datEncoding.toBuf`. -/
def datEncoding.toBuf : KeyArg → Except DriveError (List (Fin 256))
  | .buf b => encodeBuf b >>= decodeStr
  | .str s => decodeStr s

/-! ## Key/URL normaliser -/

/-- The parts of a parsed URL that `fromURLToKey` reads. -/
structure UrlParts where
  protocol : Str
  host : Str
  pathname : Str
  deriving DecidableEq

/-- Modelled from the spec: `parseDriveUrl` of `lib/urls` is not in the
sources at hand; the spec gives the URL grammar as
`<scheme>://<64-hex-chars-or-resolvable-name>/<path...>`. The protocol is the
scheme with its colon, the host runs up to the next slash. A string that does
not have the form `<scheme>://...` has no protocol. -/
def parseDriveUrl (url : Str) : UrlParts :=
  match url.dropWhile (· != ':') with
  | ':' :: '/' :: '/' :: rest =>
    { protocol := url.takeWhile (· != ':') ++ [':'],
      host := rest.takeWhile (· != '/'),
      pathname := rest.dropWhile (· != '/') }
  | _ => { protocol := [], host := [], pathname := url }

/-- The function `fromURLToKey(url, lookupDns)`; `resolveName` is the outcome of
`hyperDns.resolveName`. -/
def fromURLToKey (resolveName : Str → Except DriveError Str) (url : KeyArg)
    (lookupDns : Bool) : Except DriveError KeyArg :=
  match url with
  | .buf b => .ok (.buf b)
  | .str s =>
    if HYPERDRIVE_HASH_REGEX s then .ok (.str s)
    else
      let urlp := parseDriveUrl s
      if urlp.protocol ≠ "hyper:".toList ∧ urlp.protocol ≠ "dat:".toList then
        .error (.invalidURL "URL must be a hyper: or dat: scheme".toList)
      else if !HYPERDRIVE_HASH_REGEX urlp.host then
        if !lookupDns then .error (.invalidURL "Hostname is not a valid hash".toList)
        else (resolveName urlp.host).map KeyArg.str
      else .ok (.str urlp.host)

/-- The function `fromKeyToURL(key)`. -/
def fromKeyToURL (key : KeyArg) : Except DriveError Str :=
  match (match key with
      | .str s => (.ok s : Except DriveError Str)
      | other => datEncoding.toStr other) with
  | .error e => .error e
  | .ok key =>
    if !("hyper://".toList).isPrefixOf key then .ok ("hyper://".toList ++ key ++ "/".toList)
    else .ok key

/-! ## Metadata comparison -/

/-- The function `isUrlsEq(a, b)`; the result is the JavaScript value that the
expression `ma && mb && ma[1] === mb[1]` yields, `null` when a match is missing. -/
def isUrlsEq (a b : JsVal) : JsVal :=
  if !truthy a && !truthy b then .bool true
  else if typeOf a ≠ typeOf b then .bool false
  else
    match isUrlsEqRe (toJsString a), isUrlsEqRe (toJsString b) with
    | none, _ => .null
    | some _, none => .null
    | some ma, some mb => .bool (ma == mb)

/-- The keys that `hasMetaChanged` iterates over, in its order. -/
def metaKeys : List Str :=
  ["title", "description", "forkOf", "size", "author", "writable", "mtime"].map String.toList

/-- The statement `if (!m[k]) m[k] = undefined`. -/
def clearFalsy (m : JsObj) (k : Str) : JsObj :=
  if !truthy (getProp m k) then setProp m k .undefined else m

/-- The loop of `hasMetaChanged` over the remaining keys. Both records are
updated in place by the loop (falsy values become `undefined`), so the
records as they stand on return are part of the result. -/
def hasMetaChangedLoop : List Str → JsObj → JsObj → Bool × JsObj × JsObj
  | [], m1, m2 => (false, m1, m2)
  | k :: ks, m1, m2 =>
    if k = "forkOf".toList then
      if !truthy (isUrlsEq (getProp (clearFalsy m1 k) k) (getProp (clearFalsy m2 k) k)) then
        (true, clearFalsy m1 k, clearFalsy m2 k)
      else hasMetaChangedLoop ks (clearFalsy m1 k) (clearFalsy m2 k)
    else
      if !strictEq (getProp (clearFalsy m1 k) k) (getProp (clearFalsy m2 k) k) then
        (true, clearFalsy m1 k, clearFalsy m2 k)
      else hasMetaChangedLoop ks (clearFalsy m1 k) (clearFalsy m2 k)

/-- The function `hasMetaChanged(m1, m2)`, with the two records as it leaves
them. -/
def hasMetaChanged (m1 m2 : JsObj) : Bool × JsObj × JsObj :=
  hasMetaChangedLoop metaKeys m1 m2

/-! ## Field-wise comparison, as the specification words it -/

/-- A falsy value counts as `undefined`. -/
def normalise (v : JsVal) : JsVal :=
  if truthy v then v else .undefined

/-- The 64 digit identity embedded in a `forkOf` value, if it is a string that
holds one. -/
def identityOf : JsVal → Option Str
  | .str s => isUrlsEqRe s
  | _ => none

/-- Whether a value is a string that embeds a 64 digit identity. -/
def embedsIdentity (v : JsVal) : Bool :=
  (identityOf v).isSome

/-- The fields compared by value. -/
def valueFields : List Str :=
  ["title", "description", "size", "author", "writable", "mtime"].map String.toList

/-- Two records differ when one of the fields compared by value differs, falsy
values counting as `undefined`, or when their `forkOf` identities differ. -/
def recordsDiffer (candidate persisted : JsObj) : Bool :=
  valueFields.any (fun k =>
      !strictEq (normalise (getProp candidate k)) (normalise (getProp persisted k)))
    || (identityOf (getProp candidate "forkOf".toList)
          != identityOf (getProp persisted "forkOf".toList))

/-- How `hasMetaChanged` compares the values of one key. -/
def fieldDiffers (k : Str) (a b : JsVal) : Bool :=
  if k = "forkOf".toList then !truthy (isUrlsEq a b) else !strictEq a b

/-! ## Metadata synchroniser -/

/-- The fields of a drive session object that this module reads and writes. -/
structure Drive where
  key : List (Fin 256)
  lastMetaPullVersion : JsVal
  writable : JsVal
  deriving DecidableEq

/-- Calls that `pullLatestDriveMeta` makes on its collaborators. -/
inductive Effect where
  | version
  | assetsHasUpdates (since : JsVal)
  | readManifest
  | getMeta (key : Str)
  | setMeta (key : Str) (details : JsObj)
  | emitUpdated (key : Str) (details : JsObj) (oldMeta : JsObj)
  | logError
  deriving DecidableEq

/-- Outcomes of the collaborators during one `pullLatestDriveMeta` call:
`version` is what `drive.session.drive.version()` settles to; `manifest` is
`none` when `readManifest` rejects or yields no object; `oldMeta` is `none`
when `archivesDb.getMeta` rejects or yields no record; `setMeta` is the outcome
of `archivesDb.setMeta`; `now` is `Date.now()`. -/
structure PullEnv where
  version : Except DriveError JsVal
  manifest : Option JsObj
  oldMeta : Option JsObj
  setMeta : Except DriveError Unit
  now : Int

/-- What a `pullLatestDriveMeta` call leaves behind: the drive object, the calls
made in order, and the value returned (`none` for `undefined`). -/
structure PullResult where
  drive : Drive
  effects : List Effect
  value : Option JsObj
  deriving DecidableEq

/-- The candidate record `details` of `pullLatestDriveMeta`. -/
def candidateDetails (manifest oldMeta : JsObj) (writable : JsVal) (updateMTime : Bool)
    (now : Int) : JsObj :=
  [("title".toList, getProp manifest "title".toList),
   ("description".toList, getProp manifest "description".toList),
   ("type".toList, getProp manifest "type".toList),
   ("forkOf".toList, getProp manifest "forkOf".toList),
   ("mtime".toList, if updateMTime then .num now else getProp oldMeta "mtime".toList),
   ("size".toList, .num 0),
   ("author".toList, getProp manifest "author".toList),
   ("writable".toList, writable)]

/-- The function `pullLatestDriveMeta(drive, {updateMTime})`. Every exception
inside is caught and logged. -/
def pullLatestDriveMeta (env : PullEnv) (drive : Drive) (updateMTime : Bool) : PullResult :=
  let key := toHex drive.key
  match env.version with
  | .error _ => { drive := drive, effects := [.version, .logError], value := none }
  | .ok version =>
    if strictEq version drive.lastMetaPullVersion then
      { drive := drive, effects := [.version], value := none }
    else
      let lastMetaPullVersion := drive.lastMetaPullVersion
      let drive := { drive with lastMetaPullVersion := version }
      let assets : List Effect :=
        if truthy lastMetaPullVersion then [.assetsHasUpdates lastMetaPullVersion] else []
      let reads : List Effect := [.version] ++ assets ++ [.readManifest, .getMeta key]
      match env.oldMeta with
      | none => { drive := drive, effects := reads ++ [.logError], value := none }
      | some oldMeta =>
        let manifest := env.manifest.getD []
        let details := candidateDetails manifest oldMeta drive.writable updateMTime env.now
        match hasMetaChanged details oldMeta with
        | (false, _, _) => { drive := drive, effects := reads, value := none }
        | (true, details1, oldMeta1) =>
          match env.setMeta with
          | .error _ =>
            { drive := drive, effects := reads ++ [.setMeta key details1, .logError], value := none }
          | .ok _ =>
            let details2 := setProp details1 "url".toList (.str ("hyper://".toList ++ key))
            { drive := drive,
              effects := reads ++ [.setMeta key details1, .emitUpdated key details2 oldMeta1],
              value := some details2 }

/-! ## Session loader -/

/-- The argument object of `daemon.createHyperdriveSession`; absent fields are
`undefined` (`none` for the key). -/
structure DaemonCall where
  key : Option KeyArg
  version : JsVal
  writable : JsVal
  deriving DecidableEq

/-- The module state that `loadDrive` works on: the global
`driveLoadPromises` (key string to promise, a promise being named by a
number), the `createHyperdriveSession` calls received by the daemon so far,
and the number of load promises created so far. -/
structure LoaderState where
  driveLoadPromises : List (Str × Nat)
  daemonCalls : List DaemonCall
  promises : Nat
  deriving DecidableEq

/-- Own entry of `driveLoadPromises`. -/
def lookupPromise : List (Str × Nat) → Str → Option Nat
  | [], _ => none
  | (k, p) :: rest, name => if k = name then some p else lookupPromise rest name

/-- The assignment `driveLoadPromises[keyStr] = p`. -/
def setPromise : List (Str × Nat) → Str → Nat → List (Str × Nat)
  | [], name, p => [(name, p)]
  | (k, q) :: rest, name, p =>
    if k = name then (k, p) :: rest else (k, q) :: setPromise rest name p

/-- The test `keyStr in driveLoadPromises`: an own entry, or a name inherited
from `Object.prototype`. -/
def inPromises (m : List (Str × Nat)) (keyStr : Str) : Bool :=
  (lookupPromise m keyStr).isSome || decide (keyStr ∈ objectPrototypeKeys)

/-- The synchronous part of `loadDriveInner(key, opts)`: the daemon receives the
`createHyperdriveSession` call and the promise of the load is created. What
follows the first `await` runs when the daemon answers. -/
def loadDriveInner (st : LoaderState) (key : Option KeyArg) : LoaderState × Nat :=
  ({ st with
      daemonCalls := st.daemonCalls ++ [{ key := key, version := .undefined, writable := .undefined }],
      promises := st.promises + 1 },
   st.promises)

/-- The callback `clear` that `loadDrive` attaches to the load promise: it runs
when the load settles, with either outcome. -/
def clear (st : LoaderState) (keyStr : Str) : LoaderState :=
  { st with driveLoadPromises := st.driveLoadPromises.filter (fun e => e.1 != keyStr) }

/-- Truthiness of a key argument: `null`, `undefined` (both `none`) and the
empty string are falsy. -/
def keyTruthy : Option KeyArg → Bool
  | none => false
  | some (.str s) => !s.isEmpty
  | some (.buf _) => true

/-- The key validation at the head of `loadDrive`: a truthy key that is not a
`Buffer` is resolved by `fromURLToKey(key, true)`, tested against
`HYPERDRIVE_HASH_REGEX` and converted by `datEncoding.toBuf`. -/
def validateKey (resolveName : Str → Except DriveError Str) (key : Option KeyArg) :
    Except DriveError (Option KeyArg) :=
  if keyTruthy key then
    match key with
    | some (.str s) =>
      match fromURLToKey resolveName (.str s) true with
      | .error e => .error e
      | .ok (.buf _) => .error (.invalidURL [])
      | .ok (.str k) =>
        if !HYPERDRIVE_HASH_REGEX k then .error (.invalidURL [])
        else (datEncoding.toBuf (.str k)).map (fun b => some (KeyArg.buf b))
    | other => .ok other
  else .ok key

/-- The function `loadDrive(key, opts)`: the state it leaves and the load
promise whose outcome the call adopts. The key validation of a string key
awaits `fromURLToKey`; the state `st` is the one in which the lookup in
`driveLoadPromises` then runs, which for a `Buffer` key is the state at the
call. An inherited name found by `in` is not a load promise; no key string
is such a name. -/
def loadDrive (resolveName : Str → Except DriveError Str) (st : LoaderState)
    (key : Option KeyArg) : Except DriveError (LoaderState × Nat) :=
  match validateKey resolveName key with
  | .error e => .error e
  | .ok key =>
    match key with
    | some k =>
      if keyTruthy key then
        match datEncoding.toStr k with
        | .error e => .error e
        | .ok keyStr =>
          if !keyStr.isEmpty && inPromises st.driveLoadPromises keyStr then
            match lookupPromise st.driveLoadPromises keyStr with
            | some p => .ok (st, p)
            | none => .error (.error "not a promise".toList)
          else
            let r := loadDriveInner st key
            .ok ({ r.1 with driveLoadPromises := setPromise r.1.driveLoadPromises keyStr r.2 }, r.2)
      else .ok (loadDriveInner st key)
    | none => .ok (loadDriveInner st key)

/-! ## Number conversions of the language -/

/-- The white space and line terminator characters that `parseInt` and the
string-to-number conversion skip. -/
def isStrWhiteSpace (c : Char) : Bool :=
  decide (c.toNat ∈ [9, 10, 11, 12, 13, 32, 160, 5760, 8232, 8233, 8239, 8287, 12288, 65279])
    || (8192 ≤ c.toNat && c.toNat ≤ 8202)

/-- A decimal digit. -/
def isDigit (c : Char) : Bool :=
  48 ≤ c.toNat && c.toNat ≤ 57

/-- A digit of the given radix (2, 8, 10 or 16). -/
def isRadixDigit (radix : Nat) (c : Char) : Bool :=
  isHexChar c && decide (hexValue c < radix)

/-- Value of a digit string in the given radix. -/
def digitsValue (radix : Nat) (ds : Str) : Nat :=
  ds.foldl (fun acc c => acc * radix + hexValue c) 0

/-- The global `parseInt(string)` without a radix argument: leading white
space is skipped, then an optional sign, then an optional `0x` selecting
radix 16, then the longest run of digits; `none` is `NaN`. -/
def parseInt (s : Str) : Option Int :=
  let t := s.dropWhile isStrWhiteSpace
  let negative := t.head? == some '-'
  let t := if t.head? == some '-' || t.head? == some '+' then t.tail else t
  let hex := match t with
    | '0' :: x :: _ => x == 'x' || x == 'X'
    | _ => false
  let radix := if hex then 16 else 10
  let t := if hex then t.drop 2 else t
  let ds := t.takeWhile (isRadixDigit radix)
  if ds.isEmpty then none
  else some (if negative then - (digitsValue radix ds : Int) else (digitsValue radix ds : Int))

/-- A number value: `NaN`, an infinity, or the finite value `mant * 10 ^ exp`.
A finite value is the mathematical value of the literal it comes from, which
is the number value itself whenever that value is representable. -/
inductive JsNum where
  | nan
  | inf (negative : Bool)
  | fin (mant : Int) (exp : Int)
  deriving DecidableEq

/-- The production `StrUnsignedDecimalLiteral` without `Infinity`: digits with
an optional fraction and an optional exponent part, as mantissa and exponent. -/
def unsignedDecimal (s : Str) : Option (Nat × Int) :=
  let ip := s.takeWhile isDigit
  let r := s.dropWhile isDigit
  let frac := match r with
    | '.' :: t => t.takeWhile isDigit
    | _ => []
  let r := match r with
    | '.' :: t => t.dropWhile isDigit
    | _ => r
  if ip.isEmpty && frac.isEmpty then none
  else
    match r with
    | [] => some (digitsValue 10 (ip ++ frac), - (frac.length : Int))
    | e :: t =>
      if e == 'e' || e == 'E' then
        let negative := t.head? == some '-'
        let ds := if t.head? == some '-' || t.head? == some '+' then t.tail else t
        if !ds.isEmpty && ds.all isDigit then
          some (digitsValue 10 (ip ++ frac),
            (if negative then - (digitsValue 10 ds : Int) else (digitsValue 10 ds : Int))
              - (frac.length : Int))
        else none
      else none

/-- A literal `0x..`, `0o..` or `0b..` after its two-character head. -/
def radixLiteral (radix : Nat) (ds : Str) : JsNum :=
  if !ds.isEmpty && ds.all (isRadixDigit radix) then .fin (digitsValue radix ds) 0 else .nan

/-- The conversion of a string to a number (`StringToNumber`): surrounding
white space is dropped; the empty string is 0; a string that is not a numeric
literal as a whole is `NaN`. -/
def stringToNumber (s : Str) : JsNum :=
  let t := ((s.dropWhile isStrWhiteSpace).reverse.dropWhile isStrWhiteSpace).reverse
  match t with
  | [] => .fin 0 0
  | '0' :: 'x' :: ds => radixLiteral 16 ds
  | '0' :: 'X' :: ds => radixLiteral 16 ds
  | '0' :: 'o' :: ds => radixLiteral 8 ds
  | '0' :: 'O' :: ds => radixLiteral 8 ds
  | '0' :: 'b' :: ds => radixLiteral 2 ds
  | '0' :: 'B' :: ds => radixLiteral 2 ds
  | _ =>
    let negative := t.head? == some '-'
    let u := if t.head? == some '-' || t.head? == some '+' then t.tail else t
    if u = "Infinity".toList then .inf negative
    else
      match unsignedDecimal u with
      | none => .nan
      | some (m, e) => .fin (if negative then - (m : Int) else (m : Int)) e

/-- The conversion `ToNumber`; an object converts through its string. -/
def toNumber : JsVal → JsNum
  | .undefined => .nan
  | .null => .fin 0 0
  | .bool b => .fin (if b then 1 else 0) 0
  | .num n => .fin n 0
  | .str s => stringToNumber s
  | .obj _ image => stringToNumber image

/-- The comparison `x <= n` of a number with a non-negative integer; false for
`NaN`. -/
def JsNum.le (x : JsNum) (n : Nat) : Bool :=
  match x with
  | .nan => false
  | .inf negative => negative
  | .fin m e =>
    if 0 ≤ e then decide (m * 10 ^ e.toNat ≤ (n : Int))
    else decide (m ≤ (n : Int) * 10 ^ (-e).toNat)

/-! ## Checkout resolver -/

/-- The session that a checkout hands back: the live drive it was given, or
the session that the daemon opened for it. -/
inductive CheckoutFS where
  | live (drive : Drive)
  | opened (handle : Nat)
  deriving DecidableEq

/-- The object `{isHistoric, checkoutFS}`. -/
structure Checkout where
  isHistoric : Bool
  checkoutFS : CheckoutFS
  deriving DecidableEq

/-- Outcomes of the daemon during one `getDriveCheckout` call: what
`drive.session.drive.version()` settles to, and what
`daemon.createHyperdriveSession` settles to (a session handle). -/
structure CheckoutEnv where
  latestVersion : Except DriveError Nat
  session : Except DriveError Nat

/-- The `createHyperdriveSession` calls made and the settlement of a
`getDriveCheckout` call. -/
structure CheckoutResult where
  calls : List DaemonCall
  outcome : Except DriveError Checkout

/-- The function `getDriveCheckout(drive, version)`. -/
def getDriveCheckout (env : CheckoutEnv) (drive : Drive) (version : JsVal) : CheckoutResult :=
  if version ≠ .undefined ∧ version ≠ .null then
    match parseInt (toJsString version) with
    | none =>
      if strictEq version (.str "latest".toList) then
        { calls := [], outcome := .ok { isHistoric := false, checkoutFS := .live drive } }
      else
        { calls := [],
          outcome := .error (.error ("Invalid version identifier:".toList ++ toJsString version)) }
    | some _ =>
      match env.latestVersion with
      | .error e => { calls := [], outcome := .error e }
      | .ok latestVersion =>
        if (toNumber version).le latestVersion then
          let call : DaemonCall :=
            { key := some (.buf drive.key), version := version, writable := .bool false }
          match env.session with
          | .error e => { calls := [call], outcome := .error e }
          | .ok handle =>
            { calls := [call], outcome := .ok { isHistoric := true, checkoutFS := .opened handle } }
        else
          { calls := [], outcome := .ok { isHistoric := false, checkoutFS := .live drive } }
  else
    { calls := [], outcome := .ok { isHistoric := false, checkoutFS := .live drive } }

/-! ## Fork -/

/-- The source drive as `forkDrive` sees it: `manifest` is what
`srcDrive.pda.readManifest()` yields, `none` when it rejects or yields no
object. -/
structure SourceDrive where
  manifest : Option JsObj

/-- Outcomes of the collaborators during one `forkDrive` call: the name
resolver; whether the 60 second timer settles before the source session; and
what the daemon and the loader yield for a key (`none` for no session). -/
structure ForkEnv where
  resolveName : Str → Except DriveError Str
  timedOut : Bool
  session : KeyArg → Except DriveError (Option SourceDrive)

/-- The function `getOrLoadDrive(key, opts)` as far as `forkDrive` depends on
it: the key is resolved by `fromURLToKey(key, true)`, normalised once more by
`getDrive`, and the session found or loaded for it is returned. -/
def getOrLoadDrive (env : ForkEnv) (key : KeyArg) : Except DriveError (Option SourceDrive) :=
  match fromURLToKey env.resolveName key true with
  | .error e => .error e
  | .ok key =>
    match fromURLToKey env.resolveName key false with
    | .error e => .error e
    | .ok key => env.session key

/-- The loop `for (let k in srcManifest)` of `forkDrive`, over the properties
that remain to be visited. -/
def inheritLoop (srcManifest : JsObj) (remaining : JsObj) (dstManifest : JsObj) : JsObj :=
  remaining.foldl (fun dst kv =>
    if kv.1 = "author".toList then dst
    else if !truthy (getProp dst kv.1) then setProp dst kv.1 (getProp srcManifest kv.1)
    else dst) dstManifest

/-- The destination manifest of `forkDrive`: the object literal, then the
`for..in` loop over the source manifest. -/
def buildDstManifest (srcDriveUrl : Str) (opts srcManifest : JsObj) : Except DriveError JsObj :=
  match (if truthy (getProp opts "detached".toList) then (.ok JsVal.undefined : Except DriveError JsVal)
      else (fromKeyToURL (.str srcDriveUrl)).map JsVal.str) with
  | .error e => .error e
  | .ok forkOf =>
    .ok (inheritLoop srcManifest srcManifest
      [("title".toList,
          if truthy (getProp opts "title".toList) then getProp opts "title".toList
          else getProp srcManifest "title".toList),
       ("description".toList,
          if truthy (getProp opts "description".toList) then getProp opts "description".toList
          else getProp srcManifest "description".toList),
       ("forkOf".toList, forkOf)])

/-- The function `forkDrive(srcDriveUrl, opts)` up to its call of
`createNewDrive`: the result is the manifest passed to `createNewDrive`. -/
def forkDrive (env : ForkEnv) (srcDriveUrl : KeyArg) (opts : JsObj) : Except DriveError JsObj :=
  match fromKeyToURL srcDriveUrl with
  | .error e => .error e
  | .ok srcDriveUrl =>
    if env.timedOut then .error (.timeout "Timed out while downloading source drive".toList)
    else
      match getOrLoadDrive env (.str srcDriveUrl) with
      | .error e => .error e
      | .ok none => .error (.error "Invalid drive key".toList)
      | .ok (some srcDrive) => buildDstManifest srcDriveUrl opts (srcDrive.manifest.getD [])

/-! ## Example data -/

/-- A drive key: 32 bytes `0xab`. -/
def keyBytes : List (Fin 256) := List.replicate 32 171

/-- Its canonical form: 64 characters, `abab...`. -/
def keyHex : Str := toHex keyBytes

/-- The key of another drive, in hexadecimal: 64 characters `c`. -/
def otherHex : Str := List.replicate 64 'c'

/-- A name resolver that knows `example.com` as a name of `keyHex`. -/
def exampleResolver (name : Str) : Except DriveError Str :=
  if name = "example.com".toList then .ok keyHex else .error (.rejected "no record".toList)

/-- A source manifest with a title, an author and a `forkOf` of its own. -/
def forkedManifest : JsObj :=
  [("title".toList, .str "Notes".toList),
   ("author".toList, .str "alice".toList),
   ("forkOf".toList, .str ("hyper://".toList ++ otherHex ++ "/".toList))]

/-- Collaborators under which every source resolves to a drive with
`forkedManifest`, in time. -/
def forkEnv : ForkEnv :=
  { resolveName := exampleResolver,
    timedOut := false,
    session := fun _ => .ok (some { manifest := some forkedManifest }) }

/-- A drive whose watermark is version 5. -/
def driveAt5 : Drive :=
  { key := keyBytes, lastMetaPullVersion := .num 5, writable := .bool true }

/-- Collaborators of a pull at version 5, with an empty title in the manifest
and a stored record without a title. -/
def pullEnvAt5 : PullEnv :=
  { version := .ok (.num 5),
    manifest := some [("title".toList, .str [])],
    oldMeta := some [("writable".toList, .bool true), ("mtime".toList, .num 1000)],
    setMeta := .ok (),
    now := 2000 }

/-- The same collaborators once the drive has reached version 6. -/
def pullEnvAt6 : PullEnv :=
  { pullEnvAt5 with version := .ok (.num 6) }

/-- Collaborators of a pull at version 6 whose manifest has a new title. -/
def pullEnvRetitled : PullEnv :=
  { version := .ok (.num 6),
    manifest := some [("title".toList, .str "New".toList)],
    oldMeta := some [("title".toList, .str "Old".toList), ("writable".toList, .bool true),
      ("mtime".toList, .num 1000)],
    setMeta := .ok (),
    now := 2000 }

/-- Collaborators of a pull at version 6 whose manifest differs from the stored
record in `type` only. -/
def pullEnvRetyped : PullEnv :=
  { version := .ok (.num 6),
    manifest := some [("type".toList, .str "website".toList)],
    oldMeta := some [("type".toList, .str "app".toList), ("writable".toList, .bool true),
      ("mtime".toList, .num 1000)],
    setMeta := .ok (),
    now := 2000 }

/-- Collaborators of a pull at version 6 where the manifest and the stored
record have the same `forkOf`, a string without a 64 digit run. -/
def pullEnvPlainForkOf : PullEnv :=
  { version := .ok (.num 6),
    manifest := some [("forkOf".toList, .str "upstream".toList)],
    oldMeta := some [("forkOf".toList, .str "upstream".toList), ("writable".toList, .bool true),
      ("mtime".toList, .num 1000)],
    setMeta := .ok (),
    now := 2000 }

/-- A daemon whose drive is at version 5 and which opens sessions. -/
def checkoutEnv : CheckoutEnv :=
  { latestVersion := .ok 5, session := .ok 1 }

/-- A loader with nothing pending. -/
def idleLoader : LoaderState :=
  { driveLoadPromises := [], daemonCalls := [], promises := 0 }

/-! # Theorems -/

/-! ## Object properties and the fork loop -/

theorem getOwn_setProp_ne (o : JsObj) (k name : Str) (v : JsVal) (h : k ≠ name) :
    getOwn (setProp o k v) name = getOwn o name := by
  induction o with
  | nil => simp [setProp, getOwn, h]
  | cons kv rest ih =>
    obtain ⟨k0, w⟩ := kv
    by_cases hk : k0 = k
    · subst hk; simp [setProp, getOwn, h]
    · simp [setProp, getOwn, hk, ih]

theorem getOwn_setProp_self (o : JsObj) (k : Str) (v : JsVal) :
    getOwn (setProp o k v) k = some v := by
  induction o with
  | nil => simp [setProp, getOwn]
  | cons kv rest ih =>
    obtain ⟨k0, w⟩ := kv
    by_cases hk : k0 = k
    · subst hk; simp [setProp, getOwn]
    · simp [setProp, getOwn, hk, ih]

theorem getProp_setProp_ne (o : JsObj) (k name : Str) (v : JsVal) (h : k ≠ name) :
    getProp (setProp o k v) name = getProp o name := by
  simp [getProp, getOwn_setProp_ne o k name v h]

theorem getProp_setProp_self (o : JsObj) (k : Str) (v : JsVal) :
    getProp (setProp o k v) k = v := by
  simp [getProp, getOwn_setProp_self]

/-- The inheritance loop of `forkDrive` never creates an `author` property. -/
theorem inheritLoop_no_author (src : JsObj) (l : JsObj) (dst : JsObj)
    (h : getOwn dst "author".toList = none) :
    getOwn (inheritLoop src l dst) "author".toList = none := by
  induction l generalizing dst with
  | nil => exact h
  | cons kv rest ih =>
    unfold inheritLoop
    rw [List.foldl_cons]
    apply ih
    by_cases hk : kv.1 = "author".toList
    · rw [if_pos hk]; exact h
    · rw [if_neg hk]
      split
      · rw [getOwn_setProp_ne _ _ _ _ hk]; exact h
      · exact h

theorem fromKeyToURL_str (s : Str) :
    fromKeyToURL (.str s) =
      .ok (if ("hyper://".toList).isPrefixOf s then s else "hyper://".toList ++ s ++ "/".toList) := by
  unfold fromKeyToURL
  cases h : ("hyper://".toList).isPrefixOf s <;> simp only [h] <;> rfl

theorem buildDstManifest_no_author (url : Str) (opts src : JsObj) :
    ∃ dst, buildDstManifest url opts src = .ok dst ∧ getOwn dst "author".toList = none := by
  unfold buildDstManifest
  rw [fromKeyToURL_str]
  split
  next e he =>
    exfalso
    split at he
    · cases he
    · cases he
  next forkOf _ =>
    exact ⟨_, rfl, inheritLoop_no_author _ _ _ rfl⟩

/-- Claim C9: whatever the source manifest and the options (overrides or not,
detached or not), every manifest that `forkDrive` hands to `createNewDrive`
has no `author` property; and `forkDrive` does build such a manifest whenever
the source drive is obtained in time. -/
theorem forkDrive_never_copies_author (env : ForkEnv) (srcDriveUrl : KeyArg) (opts : JsObj) :
    (∀ dst, forkDrive env srcDriveUrl opts = .ok dst →
      getOwn dst "author".toList = none ∧ getProp dst "author".toList = .undefined) ∧
    (∀ url src, fromKeyToURL srcDriveUrl = .ok url → env.timedOut = false →
      getOrLoadDrive env (.str url) = .ok (some src) →
      ∃ dst, forkDrive env srcDriveUrl opts = .ok dst) := by
  constructor
  · intro dst h
    have key : getOwn dst "author".toList = none := by
      unfold forkDrive at h
      cases hu : fromKeyToURL srcDriveUrl with
      | error e => rw [hu] at h; cases h
      | ok url =>
        rw [hu] at h
        cases ht : env.timedOut with
        | true => rw [ht] at h; cases h
        | false =>
          rw [ht] at h
          cases hs : getOrLoadDrive env (.str url) with
          | error e => simp only [hs] at h; cases h
          | ok sd =>
            cases sd with
            | none => simp only [hs] at h; cases h
            | some sd =>
              simp only [hs] at h
              obtain ⟨d, hd, hn⟩ := buildDstManifest_no_author url opts (sd.manifest.getD [])
              have hdd : d = dst := by
                have := hd.symm.trans h
                cases this
                rfl
              rw [← hdd]
              exact hn
    refine ⟨key, ?_⟩
    unfold getProp
    rw [key]
    decide
  · intro url src hu ht hs
    obtain ⟨d, hd, _⟩ := buildDstManifest_no_author url opts (src.manifest.getD [])
    refine ⟨d, ?_⟩
    unfold forkDrive
    rw [hu]
    simp only [ht, Bool.false_eq_true, if_false, hs]
    exact hd

/-! ## Runs of characters -/

theorem takeWhile_append_of_last (p : Char → Bool) (pre x : Str) (c : Char)
    (h : pre.getLast? = some c) (hc : p c = false) :
    (pre ++ x).takeWhile p = pre.takeWhile p := by
  induction pre with
  | nil => simp at h
  | cons a l ih =>
    cases l with
    | nil =>
      simp only [List.getLast?_singleton, Option.some.injEq] at h
      subst h
      simp [List.takeWhile_cons, hc]
    | cons b l =>
      rw [List.getLast?_cons_cons] at h
      have := ih h
      simp only [List.cons_append, List.takeWhile_cons] at this ⊢
      rw [this]

theorem firstRun_append (p : Char → Bool) (n : Nat) (pre H post : Str) (hn : 0 < n)
    (hlen : H.length = n) (hH : ∀ c ∈ H, p c = true) (hpre : firstRun p n pre = none)
    (hlast : ∀ c, pre.getLast? = some c → p c = false) :
    firstRun p n (pre ++ H ++ post) = some H := by
  induction pre with
  | nil =>
    cases H with
    | nil => simp at hlen; omega
    | cons h t =>
      have htw : ((h :: t) ++ post).takeWhile p = (h :: t) ++ post.takeWhile p :=
        List.takeWhile_append_of_pos hH
      simp only [List.nil_append]
      have hcons : (h :: t) ++ post = h :: (t ++ post) := rfl
      rw [hcons, firstRun, ← hcons, htw]
      have hle : n ≤ ((h :: t) ++ post.takeWhile p).length := by
        rw [List.length_append, hlen]; omega
      rw [if_pos hle, ← hlen, List.take_left']
      rfl
  | cons a l ih =>
    rw [firstRun] at hpre
    split at hpre
    · cases hpre
    · next hnot =>
      have hl : ∀ c, l.getLast? = some c → p c = false := by
        intro c hc
        cases l with
        | nil => simp at hc
        | cons b l => exact hlast c (by rw [List.getLast?_cons_cons]; exact hc)
      have hrec := ih hpre hl
      obtain ⟨c, hc⟩ : ∃ c, (a :: l).getLast? = some c := by
        cases hg : (a :: l).getLast? with
        | none => simp at hg
        | some c => exact ⟨c, rfl⟩
      have htw : ((a :: l) ++ (H ++ post)).takeWhile p = (a :: l).takeWhile p :=
        takeWhile_append_of_last p (a :: l) (H ++ post) c hc (hlast c hc)
      have hcons : (a :: l) ++ H ++ post = a :: (l ++ H ++ post) := by simp
      rw [hcons, firstRun, ← hcons, List.append_assoc, htw, if_neg hnot]
      exact hrec

theorem HYPERDRIVE_HASH_REGEX_iff (s : Str) :
    HYPERDRIVE_HASH_REGEX s = true ↔ s.length = 64 ∧ ∀ c ∈ s, isLowerHex c = true := by
  simp [HYPERDRIVE_HASH_REGEX, List.all_eq_true]

theorem isHexChar_of_isLowerHex (c : Char) (h : isLowerHex c = true) : isHexChar c = true := by
  simp [isHexChar, h]

/-- The identity that `isUrlsEqRe` extracts from a hash wrapped in a head whose
last character is no hexadecimal digit and which holds no 64 digit run. -/
theorem isUrlsEqRe_append (pre H post : Str) (hlen : H.length = 64)
    (hH : ∀ c ∈ H, isHexChar c = true) (hpre : isUrlsEqRe pre = none)
    (hlast : ∀ c, pre.getLast? = some c → isHexChar c = false) :
    isUrlsEqRe (pre ++ H ++ post) = some H :=
  firstRun_append isHexChar 64 pre H post (by decide) hlen hH hpre hlast

/-! ## URLs -/

theorem parseDriveUrl_scheme (scheme rest : Str) (hs : ∀ c ∈ scheme, c ≠ ':') :
    parseDriveUrl (scheme ++ "://".toList ++ rest) =
      { protocol := scheme ++ [':'],
        host := rest.takeWhile (· != '/'),
        pathname := rest.dropWhile (· != '/') } := by
  have hp : ∀ c ∈ scheme, (c != ':') = true := by
    intro c hc
    simpa using hs c hc
  have e : scheme ++ "://".toList ++ rest = scheme ++ (':' :: '/' :: '/' :: rest) := by
    simp [List.append_assoc]
  have hd : (scheme ++ (':' :: '/' :: '/' :: rest)).dropWhile (· != ':') = ':' :: '/' :: '/' :: rest := by
    rw [List.dropWhile_append_of_pos hp]
    rfl
  have ht : (scheme ++ (':' :: '/' :: '/' :: rest)).takeWhile (· != ':') = scheme := by
    rw [List.takeWhile_append_of_pos hp]
    simp [List.takeWhile_cons]
  unfold parseDriveUrl
  rw [e, hd, ht]
  rfl

theorem not_hash_of_colon (scheme rest : Str) :
    HYPERDRIVE_HASH_REGEX (scheme ++ "://".toList ++ rest) = false := by
  cases h : HYPERDRIVE_HASH_REGEX (scheme ++ "://".toList ++ rest) with
  | false => rfl
  | true =>
    rw [HYPERDRIVE_HASH_REGEX_iff] at h
    have := h.2 ':' (by simp)
    exact absurd this (by decide)

theorem takeWhile_host (H path : Str) (hH : ∀ c ∈ H, isLowerHex c = true) :
    (H ++ "/".toList ++ path).takeWhile (· != '/') = H := by
  have hp : ∀ c ∈ H, (c != '/') = true := by
    intro c hc
    have := hH c hc
    simp only [bne_iff_ne, ne_eq]
    rintro rfl
    exact absurd this (by decide)
  rw [List.append_assoc, List.takeWhile_append_of_pos hp]
  simp [List.takeWhile_cons]

/-- A URL of an accepted scheme whose host is a hash yields that hash. -/
theorem fromURLToKey_hash_url (resolveName : Str → Except DriveError Str) (scheme H path : Str)
    (lookupDns : Bool) (hH : HYPERDRIVE_HASH_REGEX H = true)
    (hs : scheme = "hyper".toList ∨ scheme = "dat".toList) :
    fromURLToKey resolveName (.str (scheme ++ "://".toList ++ (H ++ "/".toList ++ path))) lookupDns
      = .ok (.str H) := by
  have hsc : ∀ c ∈ scheme, c ≠ ':' := by
    rcases hs with rfl | rfl <;> decide
  have hhex := ((HYPERDRIVE_HASH_REGEX_iff H).1 hH).2
  unfold fromURLToKey
  simp only [not_hash_of_colon, parseDriveUrl_scheme scheme _ hsc, takeWhile_host H path hhex, hH,
    Bool.false_eq_true, if_false, Bool.not_true]
  rcases hs with rfl | rfl
  · rw [if_neg (by decide)]
  · rw [if_neg (by decide)]

/-- A URL of any other scheme is refused, with or without name lookup. -/
theorem fromURLToKey_other_scheme (resolveName : Str → Except DriveError Str) (scheme rest : Str)
    (lookupDns : Bool) (hsc : ∀ c ∈ scheme, c ≠ ':')
    (h1 : scheme ≠ "hyper".toList) (h2 : scheme ≠ "dat".toList) :
    fromURLToKey resolveName (.str (scheme ++ "://".toList ++ rest)) lookupDns
      = .error (.invalidURL "URL must be a hyper: or dat: scheme".toList) := by
  unfold fromURLToKey
  simp only [not_hash_of_colon, parseDriveUrl_scheme scheme _ hsc, Bool.false_eq_true, if_false]
  have e1 : scheme ++ [':'] ≠ "hyper:".toList := by
    intro h
    apply h1
    have : scheme ++ [':'] = "hyper".toList ++ [':'] := h
    exact List.append_cancel_right this
  have e2 : scheme ++ [':'] ≠ "dat:".toList := by
    intro h
    apply h2
    have : scheme ++ [':'] = "dat".toList ++ [':'] := h
    exact List.append_cancel_right this
  rw [if_pos ⟨e1, e2⟩]

theorem fromURLToKey_hash (resolveName : Str → Except DriveError Str) (H : Str) (lookupDns : Bool)
    (hH : HYPERDRIVE_HASH_REGEX H = true) :
    fromURLToKey resolveName (.str H) lookupDns = .ok (.str H) := by
  unfold fromURLToKey
  simp [hH]

/-! ## Hexadecimal encoding -/

theorem hexDigit_lower_fin : ∀ d : Fin 16, isLowerHex (hexDigit d.val) = true := by decide

theorem hexValue_hexDigit_fin : ∀ d : Fin 16, hexValue (hexDigit d.val) = d.val := by decide

theorem hexDigit_lower (d : Nat) (h : d < 16) : isLowerHex (hexDigit d) = true :=
  hexDigit_lower_fin ⟨d, h⟩

theorem hexValue_hexDigit (d : Nat) (h : d < 16) : hexValue (hexDigit d) = d :=
  hexValue_hexDigit_fin ⟨d, h⟩

theorem length_toHex (b : List (Fin 256)) : (toHex b).length = 2 * b.length := by
  induction b with
  | nil => rfl
  | cons x xs ih => simp only [toHex, List.length_cons, ih]; omega

theorem toHex_lower (b : List (Fin 256)) : ∀ c ∈ toHex b, isLowerHex c = true := by
  induction b with
  | nil => intro c hc; simp [toHex] at hc
  | cons x xs ih =>
    intro c hc
    simp only [toHex, List.mem_cons] at hc
    rcases hc with rfl | rfl | hc
    · exact hexDigit_lower _ (by omega)
    · exact hexDigit_lower _ (by omega)
    · exact ih c hc

theorem fromHex_toHex (b : List (Fin 256)) : fromHex (toHex b) = b := by
  induction b with
  | nil => rfl
  | cons x xs ih =>
    simp only [toHex, fromHex, ih]
    congr 1
    apply Fin.ext
    simp only
    rw [hexValue_hexDigit _ (by omega), hexValue_hexDigit _ (by omega)]
    omega

theorem HYPERDRIVE_HASH_REGEX_toHex (b : List (Fin 256)) (h : b.length = 32) :
    HYPERDRIVE_HASH_REGEX (toHex b) = true := by
  rw [HYPERDRIVE_HASH_REGEX_iff]
  exact ⟨by rw [length_toHex, h], toHex_lower b⟩

theorem keyRun_of_hash (s : Str) (hlen : s.length = 64) (hs : ∀ c ∈ s, isHexChar c = true) :
    keyRun s = some s := by
  cases s with
  | nil => simp at hlen
  | cons c cs =>
    have htw : (c :: cs).takeWhile isHexChar = c :: cs :=
      List.takeWhile_eq_self_iff.2 hs
    rw [keyRun, htw, if_pos (by rw [hlen]), List.take_of_length_le (by rw [hlen]; omega)]

theorem decodeStr_toHex (b : List (Fin 256)) (h : b.length = 32) :
    decodeStr (toHex b) = .ok b := by
  have hlen : (toHex b).length = 64 := by rw [length_toHex, h]
  unfold decodeStr
  rw [keyRun_of_hash _ hlen (fun c hc => isHexChar_of_isLowerHex c (toHex_lower b c hc))]
  simp only [hlen, ne_eq, not_true_eq_false, if_false, fromHex_toHex]

theorem encodeBuf_ok (b : List (Fin 256)) (h : b.length = 32) : encodeBuf b = .ok (toHex b) := by
  simp [encodeBuf, h]

theorem length_lt_of_mem_objectPrototypeKeys : ∀ k ∈ objectPrototypeKeys, k.length < 64 := by
  decide

theorem toHex_not_inherited (b : List (Fin 256)) (h : b.length = 32) :
    toHex b ∉ objectPrototypeKeys := by
  intro hm
  have := length_lt_of_mem_objectPrototypeKeys _ hm
  rw [length_toHex, h] at this
  omega

theorem toHex_ne_nil (b : List (Fin 256)) (h : b.length = 32) : (toHex b).isEmpty = false := by
  cases hb : toHex b with
  | nil =>
    have := length_toHex b
    rw [hb, h] at this
    simp at this
  | cons c cs => rfl

/-! ## Loader -/

theorem lookupPromise_setPromise (m : List (Str × Nat)) (k : Str) (p : Nat) :
    lookupPromise (setPromise m k p) k = some p := by
  induction m with
  | nil => simp [setPromise, lookupPromise]
  | cons e rest ih =>
    obtain ⟨k0, q⟩ := e
    by_cases hk : k0 = k
    · subst hk; simp [setPromise, lookupPromise]
    · simp [setPromise, lookupPromise, hk, ih]

theorem validateKey_buf (resolveName : Str → Except DriveError Str) (K : List (Fin 256)) :
    validateKey resolveName (some (.buf K)) = .ok (some (.buf K)) := rfl

theorem validateKey_hex (resolveName : Str → Except DriveError Str) (K : List (Fin 256))
    (h : K.length = 32) :
    validateKey resolveName (some (.str (toHex K))) = .ok (some (.buf K)) := by
  have ht : keyTruthy (some (.str (toHex K))) = true := by
    simp [keyTruthy, toHex_ne_nil K h]
  unfold validateKey
  rw [if_pos ht]
  simp only [fromURLToKey_hash resolveName (toHex K) true (HYPERDRIVE_HASH_REGEX_toHex K h),
    HYPERDRIVE_HASH_REGEX_toHex K h, Bool.not_true, Bool.false_eq_true, if_false,
    datEncoding.toBuf, decodeStr_toHex K h]
  rfl

/-- Once validated, a key that is pending is answered from the cache. -/
theorem loadDrive_cached (resolveName : Str → Except DriveError Str) (st : LoaderState)
    (K : List (Fin 256)) (hK : K.length = 32) (arg : KeyArg)
    (harg : arg = .buf K ∨ arg = .str (toHex K)) (p : Nat)
    (hp : lookupPromise st.driveLoadPromises (toHex K) = some p) :
    loadDrive resolveName st (some arg) = .ok (st, p) := by
  have hv : validateKey resolveName (some arg) = .ok (some (.buf K)) := by
    rcases harg with rfl | rfl
    · exact validateKey_buf resolveName K
    · exact validateKey_hex resolveName K hK
  unfold loadDrive
  rw [hv]
  simp only [keyTruthy, if_true, datEncoding.toStr, encodeBuf_ok K hK, toHex_ne_nil K hK,
    inPromises, hp, Option.isSome_some, Bool.true_or, Bool.not_false, Bool.and_self]

/-- A key that is not pending is loaded through the daemon and registered. -/
theorem loadDrive_fresh (resolveName : Str → Except DriveError Str) (st : LoaderState)
    (K : List (Fin 256)) (hK : K.length = 32) (arg : KeyArg)
    (harg : arg = .buf K ∨ arg = .str (toHex K))
    (hp : lookupPromise st.driveLoadPromises (toHex K) = none) :
    loadDrive resolveName st (some arg) = .ok
      ({ driveLoadPromises := setPromise st.driveLoadPromises (toHex K) st.promises,
         daemonCalls := st.daemonCalls ++
           [{ key := some (.buf K), version := .undefined, writable := .undefined }],
         promises := st.promises + 1 }, st.promises) := by
  have hv : validateKey resolveName (some arg) = .ok (some (.buf K)) := by
    rcases harg with rfl | rfl
    · exact validateKey_buf resolveName K
    · exact validateKey_hex resolveName K hK
  have hni : decide (toHex K ∈ objectPrototypeKeys) = false :=
    decide_eq_false (toHex_not_inherited K hK)
  unfold loadDrive
  rw [hv]
  simp only [keyTruthy, if_true, datEncoding.toStr, encodeBuf_ok K hK, toHex_ne_nil K hK,
    inPromises, hp, hni, Option.isSome_none, Bool.or_self, Bool.not_false, Bool.and_false,
    Bool.false_eq_true, if_false, loadDriveInner]

/-! ## Metadata comparison -/

theorem strictEq_self (v : JsVal) : strictEq v v = true := by
  cases v <;> simp [strictEq]

theorem normalise_of_truthy (v : JsVal) (h : truthy v = true) : normalise v = v := by
  unfold normalise; rw [if_pos h]

theorem normalise_of_falsy (v : JsVal) (h : truthy v = false) : normalise v = .undefined := by
  unfold normalise; rw [h]; rfl

theorem normalise_idem (v : JsVal) : normalise (normalise v) = normalise v := by
  cases h : truthy v
  · rw [normalise_of_falsy v h]; rfl
  · rw [normalise_of_truthy v h, normalise_of_truthy v h]

theorem getProp_clearFalsy_self (m : JsObj) (k : Str) :
    getProp (clearFalsy m k) k = normalise (getProp m k) := by
  unfold clearFalsy
  cases h : truthy (getProp m k)
  · rw [normalise_of_falsy _ h, if_pos (by rfl), getProp_setProp_self]
  · rw [normalise_of_truthy _ h, if_neg (by simp)]

theorem normalise_getProp_clearFalsy (m : JsObj) (k j : Str) :
    normalise (getProp (clearFalsy m k) j) = normalise (getProp m j) := by
  by_cases hj : k = j
  · subst hj
    rw [getProp_clearFalsy_self, normalise_idem]
  · unfold clearFalsy
    split
    · rw [getProp_setProp_ne _ _ _ _ hj]
    · rfl

/-- The verdict of the loop is the disjunction, over its keys, of the
comparisons of the normalised values. -/
theorem hasMetaChangedLoop_fst (ks : List Str) (m1 m2 : JsObj) :
    (hasMetaChangedLoop ks m1 m2).1 =
      ks.any (fun k => fieldDiffers k (normalise (getProp m1 k)) (normalise (getProp m2 k))) := by
  induction ks generalizing m1 m2 with
  | nil => rfl
  | cons k ks ih =>
    rw [hasMetaChangedLoop, List.any_cons]
    have hrest : (hasMetaChangedLoop ks (clearFalsy m1 k) (clearFalsy m2 k)).1 =
        ks.any (fun j => fieldDiffers j (normalise (getProp m1 j)) (normalise (getProp m2 j))) := by
      rw [ih]
      simp only [normalise_getProp_clearFalsy]
    simp only [getProp_clearFalsy_self]
    have hhead : fieldDiffers k (normalise (getProp m1 k)) (normalise (getProp m2 k)) =
        if k = "forkOf".toList then
          !truthy (isUrlsEq (normalise (getProp m1 k)) (normalise (getProp m2 k)))
        else !strictEq (normalise (getProp m1 k)) (normalise (getProp m2 k)) := rfl
    rw [hhead]
    by_cases hk : k = "forkOf".toList
    · rw [if_pos hk, if_pos hk]
      split
      · next h => rw [h]; rfl
      · next h =>
        rw [hrest]
        simp only [Bool.not_eq_true] at h
        rw [h, Bool.false_or]
    · rw [if_neg hk, if_neg hk]
      split
      · next h => rw [h]; rfl
      · next h =>
        rw [hrest]
        simp only [Bool.not_eq_true] at h
        rw [h, Bool.false_or]

/-- The records the loop leaves agree with the ones it was given, up to
normalisation. -/
theorem hasMetaChangedLoop_snd (ks : List Str) (m1 m2 : JsObj) (j : Str) :
    normalise (getProp (hasMetaChangedLoop ks m1 m2).2.1 j) = normalise (getProp m1 j) ∧
    normalise (getProp (hasMetaChangedLoop ks m1 m2).2.2 j) = normalise (getProp m2 j) := by
  induction ks generalizing m1 m2 with
  | nil => exact ⟨rfl, rfl⟩
  | cons k ks ih =>
    rw [hasMetaChangedLoop]
    have hr := ih (clearFalsy m1 k) (clearFalsy m2 k)
    simp only [normalise_getProp_clearFalsy] at hr
    split
    · split
      · exact ⟨normalise_getProp_clearFalsy _ _ _, normalise_getProp_clearFalsy _ _ _⟩
      · exact hr
    · split
      · exact ⟨normalise_getProp_clearFalsy _ _ _, normalise_getProp_clearFalsy _ _ _⟩
      · exact hr

theorem isUrlsEqRe_nil : isUrlsEqRe [] = none := rfl

theorem embedsIdentity_cases (v : JsVal) (h : embedsIdentity v = true) :
    ∃ s m, v = .str s ∧ isUrlsEqRe s = some m ∧ truthy v = true := by
  cases v with
  | str s =>
    cases hm : isUrlsEqRe s with
    | none => simp [embedsIdentity, identityOf, hm] at h
    | some m =>
      refine ⟨s, m, rfl, hm, ?_⟩
      cases s with
      | nil => rw [isUrlsEqRe_nil] at hm; cases hm
      | cons c cs => rfl
  | _ => simp [embedsIdentity, identityOf] at h

theorem identityOf_falsy (v : JsVal) (h : truthy v = false) : identityOf v = none := by
  cases v with
  | str s =>
    cases s with
    | nil => rfl
    | cons c cs => simp [truthy] at h
  | _ => rfl

/-- On `forkOf` values that are falsy or embed an identity, `isUrlsEq` compares
the identities. -/
theorem forkOf_differs (a b : JsVal)
    (ha : truthy a = false ∨ embedsIdentity a = true)
    (hb : truthy b = false ∨ embedsIdentity b = true) :
    (!truthy (isUrlsEq (normalise a) (normalise b))) = (identityOf a != identityOf b) := by
  rcases ha with ha | ha <;> rcases hb with hb | hb
  · rw [identityOf_falsy a ha, identityOf_falsy b hb, normalise_of_falsy a ha,
      normalise_of_falsy b hb]
    rfl
  · obtain ⟨t, mb, rfl, hmb, htb⟩ := embedsIdentity_cases b hb
    rw [identityOf_falsy a ha, normalise_of_falsy a ha, normalise_of_truthy _ htb]
    have hi : identityOf (.str t) = some mb := hmb
    rw [hi]
    unfold isUrlsEq
    rw [htb]
    rfl
  · obtain ⟨s, ma, rfl, hma, hta⟩ := embedsIdentity_cases a ha
    rw [identityOf_falsy b hb, normalise_of_falsy b hb, normalise_of_truthy _ hta]
    have hi : identityOf (.str s) = some ma := hma
    rw [hi]
    unfold isUrlsEq
    rw [hta]
    rfl
  · obtain ⟨s, ma, rfl, hma, hta⟩ := embedsIdentity_cases a ha
    obtain ⟨t, mb, rfl, hmb, htb⟩ := embedsIdentity_cases b hb
    rw [normalise_of_truthy _ hta, normalise_of_truthy _ htb]
    have hi : identityOf (.str s) = some ma := hma
    have hj : identityOf (.str t) = some mb := hmb
    rw [hi, hj]
    unfold isUrlsEq
    rw [hta, htb]
    simp only [Bool.not_true, Bool.and_self, Bool.false_eq_true, if_false, typeOf, ne_eq,
      not_true_eq_false, toJsString, hma, hmb]
    by_cases e : ma = mb
    · subst e; simp [truthy]
    · simp [truthy, e, bne]

/-- The verdict of `hasMetaChanged` is the field-wise comparison of the
specification, for `forkOf` values that are falsy or embed an identity. -/
theorem hasMetaChanged_eq_recordsDiffer (m1 m2 : JsObj)
    (h1 : truthy (getProp m1 "forkOf".toList) = false ∨
      embedsIdentity (getProp m1 "forkOf".toList) = true)
    (h2 : truthy (getProp m2 "forkOf".toList) = false ∨
      embedsIdentity (getProp m2 "forkOf".toList) = true) :
    (hasMetaChanged m1 m2).1 = recordsDiffer m1 m2 := by
  unfold hasMetaChanged recordsDiffer
  rw [hasMetaChangedLoop_fst, ← forkOf_differs _ _ h1 h2]
  have e1 : ∀ a b, fieldDiffers "forkOf".toList a b = !truthy (isUrlsEq a b) := by
    intro a b; unfold fieldDiffers; rw [if_pos rfl]
  have e2 : ∀ k a b, k ≠ "forkOf".toList → fieldDiffers k a b = !strictEq a b := by
    intro k a b hk; unfold fieldDiffers; rw [if_neg hk]
  simp only [metaKeys, valueFields, List.map, List.any_cons, List.any_nil, Bool.or_false, e1]
  rw [e2 _ _ _ (by decide), e2 _ _ _ (by decide), e2 _ _ _ (by decide), e2 _ _ _ (by decide),
    e2 _ _ _ (by decide), e2 _ _ _ (by decide)]
  cases (!strictEq (normalise (getProp m1 "title".toList)) (normalise (getProp m2 "title".toList)))
    <;> cases (!strictEq (normalise (getProp m1 "description".toList))
        (normalise (getProp m2 "description".toList)))
    <;> cases (!truthy (isUrlsEq (normalise (getProp m1 "forkOf".toList))
        (normalise (getProp m2 "forkOf".toList))))
    <;> simp

/-! ## Values that wrap a hash -/

theorem truthy_str_append (pre H post : Str) (hlen : H.length = 64) :
    truthy (.str (pre ++ H ++ post)) = true := by
  have : (pre ++ H ++ post).length ≠ 0 := by
    simp only [List.length_append, hlen]; omega
  cases h : pre ++ H ++ post with
  | nil => rw [h] at this; exact absurd rfl this
  | cons c cs => rfl

theorem isUrlsEq_of_same_identity (a b H : Str) (ha : isUrlsEqRe a = some H)
    (hb : isUrlsEqRe b = some H) (hta : truthy (.str a) = true) :
    isUrlsEq (.str a) (.str b) = .bool true := by
  unfold isUrlsEq
  rw [hta]
  simp only [Bool.not_true, Bool.false_and, Bool.false_eq_true, if_false, typeOf, ne_eq,
    not_true_eq_false, toJsString, ha, hb, beq_self_eq_true]

theorem any_fieldDiffers_congr (ks : List Str) (m1 m2 n1 n2 : JsObj)
    (h : ∀ k ∈ ks, fieldDiffers k (normalise (getProp m1 k)) (normalise (getProp m2 k)) =
      fieldDiffers k (normalise (getProp n1 k)) (normalise (getProp n2 k))) :
    ks.any (fun k => fieldDiffers k (normalise (getProp m1 k)) (normalise (getProp m2 k))) =
    ks.any (fun k => fieldDiffers k (normalise (getProp n1 k)) (normalise (getProp n2 k))) := by
  induction ks with
  | nil => rfl
  | cons k ks ih =>
    rw [List.any_cons, List.any_cons, h k (List.mem_cons_self _ _),
      ih (fun j hj => h j (List.mem_cons_of_mem _ hj))]

/-- Claim C4: two `forkOf` values that wrap the same 64 digit identity, each in a
head that ends outside the hexadecimal digits (or is empty) and holds no
identity of its own, are equal for `isUrlsEq`, and `hasMetaChanged` gives the
verdict it gives when both records have no `forkOf` at all. -/
theorem forkOf_same_identity_is_no_change (H preA postA preB postB : Str) (m1 m2 : JsObj)
    (hlen : H.length = 64) (hH : ∀ c ∈ H, isHexChar c = true)
    (hA : isUrlsEqRe preA = none) (hlastA : ∀ c, preA.getLast? = some c → isHexChar c = false)
    (hB : isUrlsEqRe preB = none) (hlastB : ∀ c, preB.getLast? = some c → isHexChar c = false) :
    isUrlsEq (.str (preA ++ H ++ postA)) (.str (preB ++ H ++ postB)) = .bool true ∧
    (hasMetaChanged (setProp m1 "forkOf".toList (.str (preA ++ H ++ postA)))
        (setProp m2 "forkOf".toList (.str (preB ++ H ++ postB)))).1 =
      (hasMetaChanged (setProp m1 "forkOf".toList .undefined)
        (setProp m2 "forkOf".toList .undefined)).1 := by
  have ha := isUrlsEqRe_append preA H postA hlen hH hA hlastA
  have hb := isUrlsEqRe_append preB H postB hlen hH hB hlastB
  have hta := truthy_str_append preA H postA hlen
  have htb := truthy_str_append preB H postB hlen
  have heq := isUrlsEq_of_same_identity _ _ H ha hb hta
  refine ⟨heq, ?_⟩
  unfold hasMetaChanged
  rw [hasMetaChangedLoop_fst, hasMetaChangedLoop_fst]
  apply any_fieldDiffers_congr
  intro k _
  by_cases hk : k = "forkOf".toList
  · subst hk
    rw [getProp_setProp_self, getProp_setProp_self, getProp_setProp_self, getProp_setProp_self,
      normalise_of_truthy _ hta, normalise_of_truthy _ htb]
    unfold fieldDiffers
    rw [if_pos rfl, if_pos rfl, heq]
    rfl
  · have hk2 : "forkOf".toList ≠ k := fun h => hk h.symm
    rw [getProp_setProp_ne _ _ _ _ hk2, getProp_setProp_ne _ _ _ _ hk2,
      getProp_setProp_ne _ _ _ _ hk2, getProp_setProp_ne _ _ _ _ hk2]

/-! ## Metadata synchroniser -/

theorem pull_at_watermark (env : PullEnv) (drive : Drive) (updateMTime : Bool) (version : JsVal)
    (hv : env.version = .ok version)
    (heq : strictEq version drive.lastMetaPullVersion = true) :
    pullLatestDriveMeta env drive updateMTime =
      { drive := drive, effects := [.version], value := none } := by
  unfold pullLatestDriveMeta
  rw [hv]
  simp only [heq, if_true]

theorem pull_sets_watermark (env : PullEnv) (drive : Drive) (updateMTime : Bool) (version : JsVal)
    (hv : env.version = .ok version) :
    strictEq version (pullLatestDriveMeta env drive updateMTime).drive.lastMetaPullVersion
      = true := by
  by_cases heq : strictEq version drive.lastMetaPullVersion = true
  · rw [pull_at_watermark env drive updateMTime version hv heq]
    exact heq
  · unfold pullLatestDriveMeta
    rw [hv]
    have heq2 : strictEq version drive.lastMetaPullVersion = false := by simpa using heq
    simp only [heq2, Bool.false_eq_true, if_false]
    repeat' split
    all_goals exact strictEq_self version

theorem pull_failed_version (env : PullEnv) (drive : Drive) (updateMTime : Bool) (e : DriveError)
    (hv : env.version = .error e) :
    pullLatestDriveMeta env drive updateMTime =
      { drive := drive, effects := [.version, .logError], value := none } := by
  unfold pullLatestDriveMeta
  rw [hv]

/-- Claim C3: a pull whose version equals the watermark only asks for the
version; and after any pull, whatever its outcome, a second pull that gets
the same answer from `version()` leaves the drive as it is, returns nothing,
and makes no call besides `version()` (and the error log when `version()`
fails both times): no manifest read, no store read or write, no event. -/
theorem pull_at_watermark_is_noop :
    (∀ (env : PullEnv) (drive : Drive) (updateMTime : Bool) (version : JsVal),
      env.version = .ok version → strictEq version drive.lastMetaPullVersion = true →
      pullLatestDriveMeta env drive updateMTime =
        { drive := drive, effects := [.version], value := none }) ∧
    (∀ (env1 env2 : PullEnv) (drive : Drive) (u1 u2 : Bool),
      env2.version = env1.version →
      (pullLatestDriveMeta env2 (pullLatestDriveMeta env1 drive u1).drive u2).drive =
          (pullLatestDriveMeta env1 drive u1).drive ∧
      (pullLatestDriveMeta env2 (pullLatestDriveMeta env1 drive u1).drive u2).value = none ∧
      ((pullLatestDriveMeta env2 (pullLatestDriveMeta env1 drive u1).drive u2).effects = [.version] ∨
       (pullLatestDriveMeta env2 (pullLatestDriveMeta env1 drive u1).drive u2).effects =
          [.version, .logError])) := by
  refine ⟨pull_at_watermark, ?_⟩
  intro env1 env2 drive u1 u2 hsame
  cases hv : env1.version with
  | error e =>
    rw [pull_failed_version env2 _ u2 e (hsame.trans hv)]
    exact ⟨rfl, rfl, Or.inr rfl⟩
  | ok version =>
    rw [pull_at_watermark env2 _ u2 version (hsame.trans hv)
      (pull_sets_watermark env1 drive u1 version hv)]
    exact ⟨rfl, rfl, Or.inl rfl⟩

theorem getProp_candidate_forkOf (manifest oldMeta : JsObj) (writable : JsVal) (u : Bool)
    (now : Int) :
    getProp (candidateDetails manifest oldMeta writable u now) "forkOf".toList =
      getProp manifest "forkOf".toList := by
  simp [candidateDetails, getProp, getOwn]

/-- Claim C5, as amended: when the version differs from the watermark and the reads
and the write succeed, `pullLatestDriveMeta` persists the candidate (up to the
replacement of falsy values by `undefined`) and emits `updated` exactly when
the candidate differs from the persisted record in title, description, size,
author, writable or mtime, falsy values counting as `undefined`, or in the
identity of `forkOf`; otherwise it makes no call after the reads. Stated for
records that agree on `type` and whose `forkOf` is falsy or embeds an
identity. -/
theorem pull_persists_iff_records_differ (env : PullEnv) (drive : Drive) (updateMTime : Bool)
    (version : JsVal) (oldMeta : JsObj)
    (hv : env.version = .ok version)
    (hne : strictEq version drive.lastMetaPullVersion = false)
    (hold : env.oldMeta = some oldMeta)
    (hset : env.setMeta = .ok ())
    (_htype : strictEq (normalise (getProp (env.manifest.getD []) "type".toList))
      (normalise (getProp oldMeta "type".toList)) = true)
    (hf1 : truthy (getProp (env.manifest.getD []) "forkOf".toList) = false ∨
      embedsIdentity (getProp (env.manifest.getD []) "forkOf".toList) = true)
    (hf2 : truthy (getProp oldMeta "forkOf".toList) = false ∨
      embedsIdentity (getProp oldMeta "forkOf".toList) = true) :
    ∃ stored previous : JsObj,
      (∀ k, normalise (getProp stored k) =
        normalise (getProp (candidateDetails (env.manifest.getD []) oldMeta drive.writable
          updateMTime env.now) k)) ∧
      (∀ k, normalise (getProp previous k) = normalise (getProp oldMeta k)) ∧
      (pullLatestDriveMeta env drive updateMTime).effects =
        [.version] ++
        (if truthy drive.lastMetaPullVersion then [.assetsHasUpdates drive.lastMetaPullVersion]
          else []) ++
        [.readManifest, .getMeta (toHex drive.key)] ++
        (if recordsDiffer (candidateDetails (env.manifest.getD []) oldMeta drive.writable
            updateMTime env.now) oldMeta then
          [.setMeta (toHex drive.key) stored,
           .emitUpdated (toHex drive.key)
              (setProp stored "url".toList (.str ("hyper://".toList ++ toHex drive.key))) previous]
         else []) ∧
      (pullLatestDriveMeta env drive updateMTime).value =
        (if recordsDiffer (candidateDetails (env.manifest.getD []) oldMeta drive.writable
            updateMTime env.now) oldMeta then
          some (setProp stored "url".toList (.str ("hyper://".toList ++ toHex drive.key)))
         else none) := by
  have hrd := hasMetaChanged_eq_recordsDiffer
    (candidateDetails (env.manifest.getD []) oldMeta drive.writable updateMTime env.now) oldMeta
    (by rw [getProp_candidate_forkOf]; exact hf1) hf2
  have hsnd := hasMetaChangedLoop_snd metaKeys
    (candidateDetails (env.manifest.getD []) oldMeta drive.writable updateMTime env.now) oldMeta
  refine ⟨(hasMetaChanged (candidateDetails (env.manifest.getD []) oldMeta drive.writable
      updateMTime env.now) oldMeta).2.1,
    (hasMetaChanged (candidateDetails (env.manifest.getD []) oldMeta drive.writable
      updateMTime env.now) oldMeta).2.2, fun k => (hsnd k).1, fun k => (hsnd k).2, ?_⟩
  rw [← hrd]
  unfold pullLatestDriveMeta
  rw [hv]
  simp only [hne, Bool.false_eq_true, if_false, hold, hset]
  cases hres : hasMetaChanged (candidateDetails (env.manifest.getD []) oldMeta drive.writable
      updateMTime env.now) oldMeta with
  | mk c rest =>
    obtain ⟨d, o⟩ := rest
    cases c
    · simp
    · simp

/-! ## Checkout resolver -/

theorem strictEq_str_of_ne (v : JsVal) (s : Str) (h : v ≠ .str s) : strictEq v (.str s) = false := by
  cases v with
  | str t =>
    have : t ≠ s := fun e => h (by rw [e])
    simp [strictEq, this]
  | _ => rfl

/-- Claim C7, as amended: a version identifier other than `undefined` and
`null` for which `parseInt` yields `NaN` (as it does for every string whose
first character is neither white space, nor a sign, nor a digit) and which is
not the string `latest` makes `getDriveCheckout` throw the invalid identifier
error, and no session is opened. -/
theorem getDriveCheckout_rejects_non_numeric (env : CheckoutEnv) (drive : Drive) (version : JsVal)
    (h1 : version ≠ .undefined) (h2 : version ≠ .null)
    (hnan : parseInt (toJsString version) = none)
    (hl : version ≠ .str "latest".toList) :
    (getDriveCheckout env drive version).calls = [] ∧
    (getDriveCheckout env drive version).outcome =
      .error (.error ("Invalid version identifier:".toList ++ toJsString version)) := by
  unfold getDriveCheckout
  rw [if_pos ⟨h1, h2⟩, hnan]
  simp only [strictEq_str_of_ne version _ hl, Bool.false_eq_true, if_false, and_self]

theorem isDigit_of_isRadixDigit (c : Char) (h : isRadixDigit 10 c = true) : isDigit c = true := by
  simp only [isRadixDigit, isHexChar, isLowerHex, hexValue, Bool.and_eq_true, Bool.or_eq_true,
    decide_eq_true_eq] at h
  simp only [isDigit, Bool.and_eq_true, decide_eq_true_eq]
  obtain ⟨hc, hv⟩ := h
  split at hv
  · omega
  · split at hv <;> omega

/-- The result of `parseInt` is `NaN` for every string whose first character is
neither white space, nor a sign, nor a decimal digit. -/
theorem parseInt_eq_none_of_head (c : Char) (rest : Str) (hws : isStrWhiteSpace c = false)
    (hm : c ≠ '-') (hp : c ≠ '+') (hd : isDigit c = false) :
    parseInt (c :: rest) = none := by
  have hdw : (c :: rest).dropWhile isStrWhiteSpace = c :: rest := by
    rw [List.dropWhile_cons, hws]; rfl
  have hm2 : (c == '-') = false := by simpa using hm
  have hp2 : (c == '+') = false := by simpa using hp
  have hhex : (match c :: rest with
      | '0' :: x :: _ => x == 'x' || x == 'X'
      | _ => false) = false := by
    split
    · next x _ heq =>
      have : c = '0' := by injection heq
      rw [this] at hd
      exact absurd hd (by decide)
    · rfl
  have hr : isRadixDigit 10 c = false := by
    cases h : isRadixDigit 10 c with
    | false => rfl
    | true => rw [isDigit_of_isRadixDigit c h] at hd; cases hd
  unfold parseInt
  simp only [hdw, List.head?_cons, Option.some_beq_some, hm2, hp2, Bool.or_self, Bool.false_eq_true,
    if_false, hhex, List.takeWhile_cons, hr, List.isEmpty_nil, if_true]

theorem isDigit_bounds (c : Char) (h : isDigit c = true) : 48 ≤ c.toNat ∧ c.toNat ≤ 57 := by
  simpa [isDigit] using h

theorem not_ws_of_isDigit (c : Char) (h : isDigit c = true) : isStrWhiteSpace c = false := by
  have hb := isDigit_bounds c h
  rw [Bool.eq_false_iff]
  intro hw
  simp only [isStrWhiteSpace, Bool.or_eq_true, decide_eq_true_eq, List.mem_cons,
    List.mem_singleton, Bool.and_eq_true, List.mem_nil_iff, or_false] at hw
  omega

theorem ne_of_isDigit (c d : Char) (h : isDigit c = true) (hd : isDigit d = false) : c ≠ d := by
  rintro rfl
  rw [h] at hd
  cases hd

theorem isRadixDigit_of_isDigit (c : Char) (h : isDigit c = true) : isRadixDigit 10 c = true := by
  have hb := isDigit_bounds c h
  simp only [isRadixDigit, isHexChar, isLowerHex, hexValue, Bool.and_eq_true, Bool.or_eq_true,
    decide_eq_true_eq]
  refine ⟨Or.inl (Or.inl ⟨hb.1, hb.2⟩), ?_⟩
  rw [if_pos hb.2]
  omega

theorem dropWhile_eq_self (p : Char → Bool) (l : Str) (h : ∀ c ∈ l, p c = false) :
    l.dropWhile p = l := by
  cases l with
  | nil => rfl
  | cons c cs => rw [List.dropWhile_cons, h c (List.mem_cons_self _ _)]; rfl

theorem parseInt_digits (ds : Str) (hne : ds ≠ []) (hd : ∀ c ∈ ds, isDigit c = true) :
    parseInt ds = some (digitsValue 10 ds : Int) := by
  cases ds with
  | nil => exact absurd rfl hne
  | cons c cs =>
    have hc := hd c (List.mem_cons_self _ _)
    have hws : (c :: cs).dropWhile isStrWhiteSpace = c :: cs := by
      rw [List.dropWhile_cons, not_ws_of_isDigit c hc]; rfl
    have hm : (c == '-') = false := by
      simpa using ne_of_isDigit c '-' hc (by decide)
    have hp : (c == '+') = false := by
      simpa using ne_of_isDigit c '+' hc (by decide)
    have hhex : (match c :: cs with
        | '0' :: x :: _ => x == 'x' || x == 'X'
        | _ => false) = false := by
      split
      · next x _ heq =>
        have hx : isDigit x = true := by
          have : x ∈ c :: cs := by rw [heq]; simp
          exact hd x this
        have e1 : (x == 'x') = false := by simpa using ne_of_isDigit x 'x' hx (by decide)
        have e2 : (x == 'X') = false := by simpa using ne_of_isDigit x 'X' hx (by decide)
        rw [e1, e2]; rfl
      · rfl
    have htw : (c :: cs).takeWhile (isRadixDigit 10) = c :: cs :=
      List.takeWhile_eq_self_iff.2 (fun x hx => isRadixDigit_of_isDigit x (hd x hx))
    unfold parseInt
    simp only [hws, List.head?_cons, Option.some_beq_some, hm, hp, Bool.or_self, Bool.false_eq_true,
      if_false, hhex, htw, List.isEmpty_cons]

theorem unsignedDecimal_digits (ds : Str) (hne : ds ≠ []) (hd : ∀ c ∈ ds, isDigit c = true) :
    unsignedDecimal ds = some (digitsValue 10 ds, 0) := by
  have htw : ds.takeWhile isDigit = ds := List.takeWhile_eq_self_iff.2 hd
  have hdw : ds.dropWhile isDigit = [] := List.dropWhile_eq_nil_iff.2 hd
  have hemp : ds.isEmpty = false := by
    cases ds with
    | nil => exact absurd rfl hne
    | cons c cs => rfl
  unfold unsignedDecimal
  simp only [htw, hdw, hemp, Bool.false_and, Bool.false_eq_true, if_false, List.append_nil,
    List.length_nil]
  rfl

theorem stringToNumber_digits (ds : Str) (hne : ds ≠ []) (hd : ∀ c ∈ ds, isDigit c = true) :
    stringToNumber ds = .fin (digitsValue 10 ds) 0 := by
  have hws : ∀ c ∈ ds, isStrWhiteSpace c = false := fun c hc => not_ws_of_isDigit c (hd c hc)
  have htrim : ((ds.dropWhile isStrWhiteSpace).reverse.dropWhile isStrWhiteSpace).reverse = ds := by
    rw [dropWhile_eq_self _ ds hws,
      dropWhile_eq_self _ ds.reverse (fun c hc => hws c (List.mem_reverse.1 hc)),
      List.reverse_reverse]
  have hnot : ∀ x, isDigit x = false → x ∉ ds := by
    intro x hx hmem
    rw [hd x hmem] at hx
    cases hx
  unfold stringToNumber
  rw [htrim]
  dsimp only
  split
  · exact absurd rfl hne
  · exact absurd (by simp) (hnot 'x' (by decide))
  · exact absurd (by simp) (hnot 'X' (by decide))
  · exact absurd (by simp) (hnot 'o' (by decide))
  · exact absurd (by simp) (hnot 'O' (by decide))
  · exact absurd (by simp) (hnot 'b' (by decide))
  · exact absurd (by simp) (hnot 'B' (by decide))
  · cases ds with
    | nil => exact absurd rfl hne
    | cons c cs =>
      have hc := hd c (List.mem_cons_self _ _)
      have hm : (c == '-') = false := by
        simpa using ne_of_isDigit c '-' hc (by decide)
      have hp : (c == '+') = false := by
        simpa using ne_of_isDigit c '+' hc (by decide)
      have hinf : c :: cs ≠ "Infinity".toList := by
        intro h
        exact hnot 'I' (by decide) (by rw [h]; decide)
      simp only [List.head?_cons, Option.some_beq_some, hm, hp, Bool.or_self, Bool.false_eq_true,
        if_false, hinf, unsignedDecimal_digits (c :: cs) hne hd]

/-- Claim C8, as amended: for a version given as a string of decimal digits
(of a value up to 2 ^ 53, which a number represents exactly),
`getDriveCheckout` opens a read-only session pinned to that version and
returns it as historic when the number is at most the current version; when
it exceeds the current version no session is opened and the live session is
returned with `isHistoric` false. -/
theorem getDriveCheckout_numeric (env : CheckoutEnv) (drive : Drive) (ds : Str)
    (latest handle : Nat) (hne : ds ≠ []) (hd : ∀ c ∈ ds, isDigit c = true)
    (_hexact : digitsValue 10 ds ≤ 2 ^ 53)
    (hl : env.latestVersion = .ok latest) (hs : env.session = .ok handle) :
    (digitsValue 10 ds ≤ latest →
      (getDriveCheckout env drive (.str ds)).calls =
        [{ key := some (.buf drive.key), version := .str ds, writable := .bool false }] ∧
      (getDriveCheckout env drive (.str ds)).outcome =
        .ok { isHistoric := true, checkoutFS := .opened handle }) ∧
    (latest < digitsValue 10 ds →
      (getDriveCheckout env drive (.str ds)).calls = [] ∧
      (getDriveCheckout env drive (.str ds)).outcome =
        .ok { isHistoric := false, checkoutFS := .live drive }) := by
  have hle : (toNumber (.str ds)).le latest = decide (digitsValue 10 ds ≤ latest) := by
    simp only [toNumber, stringToNumber_digits ds hne hd, JsNum.le]
    simp
  have hgo : getDriveCheckout env drive (.str ds) =
      if (toNumber (.str ds)).le latest then
        { calls := [{ key := some (.buf drive.key), version := .str ds, writable := .bool false }],
          outcome := .ok { isHistoric := true, checkoutFS := .opened handle } }
      else { calls := [], outcome := .ok { isHistoric := false, checkoutFS := .live drive } } := by
    unfold getDriveCheckout
    rw [if_pos ⟨by simp, by simp⟩]
    simp only [toJsString, parseInt_digits ds hne hd, hl, hs]
  rw [hgo, hle]
  constructor
  · intro h
    rw [decide_eq_true h]
    exact ⟨rfl, rfl⟩
  · intro h
    rw [decide_eq_false (by omega)]
    exact ⟨rfl, rfl⟩

/-! ## Fork -/

theorem inheritLoop_keeps (src l dst : JsObj) (k : Str) (h : truthy (getProp dst k) = true) :
    getProp (inheritLoop src l dst) k = getProp dst k := by
  induction l generalizing dst with
  | nil => rfl
  | cons kv rest ih =>
    unfold inheritLoop
    rw [List.foldl_cons]
    by_cases ha : kv.1 = "author".toList
    · rw [if_pos ha]
      exact ih dst h
    · rw [if_neg ha]
      by_cases hf : (!truthy (getProp dst kv.1)) = true
      · rw [if_pos hf]
        have hne : kv.1 ≠ k := by
          rintro rfl
          rw [h] at hf
          cases hf
        have hk : getProp (setProp dst kv.1 (getProp src kv.1)) k = getProp dst k :=
          getProp_setProp_ne _ _ _ _ hne
        have := ih (setProp dst kv.1 (getProp src kv.1)) (by rw [hk]; exact h)
        exact this.trans hk
      · rw [if_neg hf]
        exact ih dst h

theorem fromKeyToURL_hyper (rest : Str) :
    fromKeyToURL (.str ("hyper://".toList ++ rest)) = .ok ("hyper://".toList ++ rest) := by
  rw [fromKeyToURL_str]
  have : ("hyper://".toList).isPrefixOf ("hyper://".toList ++ rest) = true := by
    simp [List.isPrefixOf]
  rw [this]
  rfl

theorem fromKeyToURL_hash (H : Str) (hH : HYPERDRIVE_HASH_REGEX H = true) :
    fromKeyToURL (.str H) = .ok ("hyper://".toList ++ H ++ "/".toList) := by
  rw [fromKeyToURL_str]
  have : ("hyper://".toList).isPrefixOf H = false := by
    obtain ⟨hlen, hhex⟩ := (HYPERDRIVE_HASH_REGEX_iff H).1 hH
    cases H with
    | nil => simp at hlen
    | cons c cs =>
      have hc := hhex c (List.mem_cons_self _ _)
      have : c ≠ 'h' := by
        rintro rfl
        exact absurd hc (by decide)
      simp [List.isPrefixOf, Ne.symm this]
  rw [this]
  rfl

theorem buildDstManifest_forkOf (url : Str) (opts src : JsObj)
    (hu : fromKeyToURL (.str url) = .ok url)
    (hne : truthy (.str url) = true)
    (hd : truthy (getProp opts "detached".toList) = false) :
    ∃ dst, buildDstManifest url opts src = .ok dst ∧
      getProp dst "forkOf".toList = .str url := by
  unfold buildDstManifest
  rw [hd, hu]
  refine ⟨_, rfl, ?_⟩
  rw [inheritLoop_keeps]
  · rfl
  · exact hne

theorem forkDrive_eq_of_url (env : ForkEnv) (opts : JsObj) (arg : KeyArg) (url : Str)
    (harg : fromKeyToURL arg = .ok url) (hu : fromKeyToURL (.str url) = .ok url) :
    forkDrive env arg opts = forkDrive env (.str url) opts := by
  unfold forkDrive
  rw [harg, hu]

/-- The manifest built for a non-detached fork of a source addressed by a
`hyper://` URL carries that URL as `forkOf`. -/
theorem forkDrive_of_hyper_url (env : ForkEnv) (opts : JsObj) (src : SourceDrive) (rest : Str)
    (key : KeyArg)
    (ht : env.timedOut = false)
    (hkey : fromURLToKey env.resolveName (.str ("hyper://".toList ++ rest)) true = .ok key)
    (hkey2 : fromURLToKey env.resolveName key false = .ok key)
    (hs : env.session key = .ok (some src))
    (hd : truthy (getProp opts "detached".toList) = false) :
    ∃ dst, forkDrive env (.str ("hyper://".toList ++ rest)) opts = .ok dst ∧
      getProp dst "forkOf".toList = .str ("hyper://".toList ++ rest) := by
  obtain ⟨dst, h1, h2⟩ := buildDstManifest_forkOf ("hyper://".toList ++ rest) opts
    (src.manifest.getD []) (fromKeyToURL_hyper rest) rfl hd
  refine ⟨dst, ?_, h2⟩
  unfold forkDrive
  rw [fromKeyToURL_hyper]
  simp only [ht, Bool.false_eq_true, if_false, getOrLoadDrive, hkey, hkey2, hs]
  exact h1

theorem ne_of_getOwn_eq_none (o : JsObj) (k : Str) (h : getOwn o k = none) :
    ∀ kv ∈ o, kv.1 ≠ k := by
  induction o with
  | nil => intro kv hkv; cases hkv
  | cons e rest ih =>
    obtain ⟨k0, v⟩ := e
    rw [getOwn] at h
    split at h
    · cases h
    · next hne =>
      intro kv hkv
      rcases List.mem_cons.1 hkv with rfl | hmem
      · exact hne
      · exact ih h kv hmem

theorem inheritLoop_untouched (src l dst : JsObj) (k : Str) (h : ∀ kv ∈ l, kv.1 ≠ k) :
    getProp (inheritLoop src l dst) k = getProp dst k := by
  induction l generalizing dst with
  | nil => rfl
  | cons kv rest ih =>
    have hk : kv.1 ≠ k := h kv (List.mem_cons_self _ _)
    have hrest : ∀ e ∈ rest, e.1 ≠ k := fun e he => h e (List.mem_cons_of_mem _ he)
    unfold inheritLoop
    rw [List.foldl_cons]
    split
    · exact ih dst hrest
    · split
      · exact (ih _ hrest).trans (getProp_setProp_ne _ _ _ _ hk)
      · exact ih dst hrest

/-- What `forkDrive` gets right for a detached fork: when the source manifest
has no `forkOf` property, the manifest built has an undefined `forkOf`. -/
theorem buildDstManifest_detached_without_forkOf (url : Str) (opts src : JsObj)
    (hd : truthy (getProp opts "detached".toList) = true)
    (hsrc : getOwn src "forkOf".toList = none) :
    ∃ dst, buildDstManifest url opts src = .ok dst ∧
      getProp dst "forkOf".toList = .undefined := by
  unfold buildDstManifest
  rw [hd]
  refine ⟨_, rfl, ?_⟩
  rw [inheritLoop_untouched _ _ _ _ (ne_of_getOwn_eq_none src _ hsrc)]
  rfl

theorem hyper_url_assoc (H path : Str) :
    "hyper://".toList ++ H ++ "/".toList ++ path =
      "hyper".toList ++ "://".toList ++ (H ++ "/".toList ++ path) := by
  simp

theorem dat_url_assoc (H path : Str) :
    "dat://".toList ++ H ++ "/".toList ++ path =
      "dat".toList ++ "://".toList ++ (H ++ "/".toList ++ path) := by
  simp

theorem takeWhile_until_slash (name path : Str) (hn : ∀ c ∈ name, c ≠ '/') :
    (name ++ "/".toList ++ path).takeWhile (· != '/') = name := by
  have hp : ∀ c ∈ name, (c != '/') = true := by
    intro c hc
    simpa using hn c hc
  rw [List.append_assoc, List.takeWhile_append_of_pos hp]
  simp [List.takeWhile_cons]

/-- A `hyper:` URL whose host is a name is resolved through the name
resolver when lookup is allowed. -/
theorem fromURLToKey_name_url (resolveName : Str → Except DriveError Str) (name path key : Str)
    (hn : ∀ c ∈ name, c ≠ '/') (hname : HYPERDRIVE_HASH_REGEX name = false)
    (hr : resolveName name = .ok key) :
    fromURLToKey resolveName (.str ("hyper://".toList ++ name ++ "/".toList ++ path)) true
      = .ok (.str key) := by
  have hsc : ∀ c ∈ "hyper".toList, c ≠ ':' := by decide
  rw [hyper_url_assoc]
  unfold fromURLToKey
  simp only [not_hash_of_colon, parseDriveUrl_scheme _ _ hsc, takeWhile_until_slash name path hn,
    hname, Bool.false_eq_true, if_false, Bool.not_false, Bool.not_true, if_true, hr]
  rw [if_neg (by decide)]
  rfl

/-- The manifest built for a non-detached fork of a source addressed by a
`hyper:` URL whose host is a name carries that URL as `forkOf`. -/
theorem forkDrive_of_name_url (env : ForkEnv) (opts : JsObj) (src : SourceDrive)
    (ht : env.timedOut = false)
    (hd : truthy (getProp opts "detached".toList) = false) (name path key : Str)
    (hn : ∀ c ∈ name, c ≠ '/') (hname : HYPERDRIVE_HASH_REGEX name = false)
    (hr : env.resolveName name = .ok key) (hkey : HYPERDRIVE_HASH_REGEX key = true)
    (hs : env.session (.str key) = .ok (some src)) :
      ∃ dst, forkDrive env (.str ("hyper://".toList ++ name ++ "/".toList ++ path)) opts = .ok dst ∧
        getProp dst "forkOf".toList = .str ("hyper://".toList ++ name ++ "/".toList ++ path) := by
  have e : "hyper://".toList ++ name ++ "/".toList ++ path =
      "hyper://".toList ++ (name ++ "/".toList ++ path) := by
    simp only [List.append_assoc]
  have hk := fromURLToKey_name_url env.resolveName name path key hn hname hr
  rw [e] at hk ⊢
  exact forkDrive_of_hyper_url env opts src _ (.str key) ht hk
    (fromURLToKey_hash env.resolveName key false hkey) hs hd

/-- Claim C6, as amended: for a source given as its bare hexadecimal key, as
the raw key buffer, or as a `hyper://` URL whose host is the key, a fork that
is not detached resolves the source to that key and is given a `forkOf` in
which `isUrlsEqRe` finds the key: `hyper://<key>/` for the first two forms and
the URL as given for the third. For a `hyper://` URL whose host is a name that
resolves to a key, `forkOf` is the URL as given, with the name. -/
theorem forkDrive_forkOf_embeds_key (env : ForkEnv) (opts : JsObj) (src : SourceDrive) (H : Str)
    (hH : HYPERDRIVE_HASH_REGEX H = true)
    (ht : env.timedOut = false)
    (hs : env.session (.str H) = .ok (some src))
    (hd : truthy (getProp opts "detached".toList) = false) :
    (∃ dst, forkDrive env (.str H) opts = .ok dst ∧
      getProp dst "forkOf".toList = .str ("hyper://".toList ++ H ++ "/".toList)) ∧
    (∀ K : List (Fin 256), toHex K = H →
      ∃ dst, forkDrive env (.buf K) opts = .ok dst ∧
        getProp dst "forkOf".toList = .str ("hyper://".toList ++ H ++ "/".toList)) ∧
    (∀ path : Str,
      ∃ dst, forkDrive env (.str ("hyper://".toList ++ H ++ "/".toList ++ path)) opts = .ok dst ∧
        getProp dst "forkOf".toList = .str ("hyper://".toList ++ H ++ "/".toList ++ path)) ∧
    (∀ path : Str,
      getOrLoadDrive env (.str ("hyper://".toList ++ H ++ "/".toList ++ path)) = .ok (some src) ∧
      isUrlsEqRe ("hyper://".toList ++ H ++ "/".toList ++ path) = some H) ∧
    (∀ name path key : Str, (∀ c ∈ name, c ≠ '/') → HYPERDRIVE_HASH_REGEX name = false →
      env.resolveName name = .ok key → HYPERDRIVE_HASH_REGEX key = true →
      env.session (.str key) = .ok (some src) →
      ∃ dst, forkDrive env (.str ("hyper://".toList ++ name ++ "/".toList ++ path)) opts = .ok dst ∧
        getProp dst "forkOf".toList =
          .str ("hyper://".toList ++ name ++ "/".toList ++ path)) := by
  obtain ⟨hlen, hhex⟩ := (HYPERDRIVE_HASH_REGEX_iff H).1 hH
  have hk : ∀ path : Str,
      fromURLToKey env.resolveName (.str ("hyper://".toList ++ H ++ "/".toList ++ path)) true
        = .ok (.str H) := by
    intro path
    rw [hyper_url_assoc]
    exact fromURLToKey_hash_url env.resolveName _ H path true hH (Or.inl rfl)
  have hk2 := fromURLToKey_hash env.resolveName H false hH
  have hurl : ∀ path : Str,
      ∃ dst, forkDrive env (.str ("hyper://".toList ++ H ++ "/".toList ++ path)) opts = .ok dst ∧
        getProp dst "forkOf".toList = .str ("hyper://".toList ++ H ++ "/".toList ++ path) := by
    intro path
    have e : "hyper://".toList ++ H ++ "/".toList ++ path =
        "hyper://".toList ++ (H ++ "/".toList ++ path) := by
      simp only [List.append_assoc]
    rw [e]
    exact forkDrive_of_hyper_url env opts src (H ++ "/".toList ++ path) (.str H) ht
      (by rw [← e]; exact hk path) hk2 hs hd
  have hbare : ∀ arg : KeyArg, fromKeyToURL arg = .ok ("hyper://".toList ++ H ++ "/".toList) →
      ∃ dst, forkDrive env arg opts = .ok dst ∧
        getProp dst "forkOf".toList = .str ("hyper://".toList ++ H ++ "/".toList) := by
    intro arg harg
    obtain ⟨dst, h1, h2⟩ := hurl []
    rw [List.append_nil] at h1 h2
    refine ⟨dst, ?_, h2⟩
    rw [forkDrive_eq_of_url env opts arg _ harg
      (by rw [List.append_assoc]; exact fromKeyToURL_hyper _)]
    exact h1
  refine ⟨hbare _ (fromKeyToURL_hash H hH), ?_, hurl, ?_,
    fun name path key hn hname hr hkey hsk =>
      forkDrive_of_name_url env opts src ht hd name path key hn hname hr hkey hsk⟩
  · intro K hK
    apply hbare
    have hKlen : K.length = 32 := by
      have := length_toHex K
      rw [hK, hlen] at this
      omega
    have hstr := fromKeyToURL_hash H hH
    unfold fromKeyToURL at hstr ⊢
    simp only [datEncoding.toStr, encodeBuf_ok K hKlen, hK]
    exact hstr
  · intro path
    refine ⟨?_, ?_⟩
    · unfold getOrLoadDrive
      rw [hk path]
      simp only [hk2, hs]
    · have := isUrlsEqRe_append "hyper://".toList H ("/".toList ++ path) hlen
        (fun c hc => isHexChar_of_isLowerHex c (hhex c hc)) (by decide) (by decide)
      simpa [List.append_assoc] using this

/-! ## Normaliser and loader -/

/-- Claim C10: for a valid hash `H` and any path, `fromURLToKey` returns `H` for the
`hyper:` URL and for the `dat:` URL with host `H`, as it does for the bare
hash, with or without name lookup; a URL of any other scheme is refused with
an `InvalidURLError`. -/
theorem fromURLToKey_accepts_hyper_and_dat (resolveName : Str → Except DriveError Str)
    (H path : Str) (lookupDns : Bool) (hH : HYPERDRIVE_HASH_REGEX H = true) :
    fromURLToKey resolveName (.str ("hyper://".toList ++ H ++ "/".toList ++ path)) lookupDns
      = .ok (.str H) ∧
    fromURLToKey resolveName (.str ("dat://".toList ++ H ++ "/".toList ++ path)) lookupDns
      = .ok (.str H) ∧
    fromURLToKey resolveName (.str H) lookupDns = .ok (.str H) ∧
    (∀ scheme rest : Str, (∀ c ∈ scheme, c ≠ ':') →
      scheme ≠ "hyper".toList → scheme ≠ "dat".toList →
      ∃ msg, fromURLToKey resolveName (.str (scheme ++ "://".toList ++ rest)) lookupDns
        = .error (.invalidURL msg)) := by
  refine ⟨?_, ?_, fromURLToKey_hash resolveName H lookupDns hH, ?_⟩
  · rw [hyper_url_assoc]
    exact fromURLToKey_hash_url resolveName _ H path lookupDns hH (Or.inl rfl)
  · rw [dat_url_assoc]
    exact fromURLToKey_hash_url resolveName _ H path lookupDns hH (Or.inr rfl)
  · intro scheme rest hsc h1 h2
    exact ⟨_, fromURLToKey_other_scheme resolveName scheme rest lookupDns hsc h1 h2⟩

/-- Claim C2: for a drive key `K`, passed as a `Buffer` or as its hexadecimal
string: when a load of `K` is pending, `loadDrive` answers with the pending
promise and leaves the state, and with it the calls received by the daemon,
as it is; when none is pending, `loadDrive` makes one `createHyperdriveSession`
call for `K` and registers the promise, and a second `loadDrive` for `K`
before that promise settles answers with the same promise and makes no
further call. -/
theorem loadDrive_single_flight (resolveName : Str → Except DriveError Str) (st : LoaderState)
    (K : List (Fin 256)) (arg arg2 : KeyArg) (hK : K.length = 32)
    (harg : arg = .buf K ∨ arg = .str (toHex K))
    (harg2 : arg2 = .buf K ∨ arg2 = .str (toHex K)) :
    (∀ p, lookupPromise st.driveLoadPromises (toHex K) = some p →
      loadDrive resolveName st (some arg) = .ok (st, p)) ∧
    (lookupPromise st.driveLoadPromises (toHex K) = none →
      ∃ st1, loadDrive resolveName st (some arg) = .ok (st1, st.promises) ∧
        st1.daemonCalls = st.daemonCalls ++
          [{ key := some (.buf K), version := .undefined, writable := .undefined }] ∧
        lookupPromise st1.driveLoadPromises (toHex K) = some st.promises ∧
        loadDrive resolveName st1 (some arg2) = .ok (st1, st.promises)) := by
  refine ⟨fun p hp => loadDrive_cached resolveName st K hK arg harg p hp, ?_⟩
  intro hnone
  refine ⟨_, loadDrive_fresh resolveName st K hK arg harg hnone, rfl,
    lookupPromise_setPromise _ _ _, ?_⟩
  exact loadDrive_cached resolveName _ K hK arg2 harg2 _ (lookupPromise_setPromise _ _ _)

/-! ## Instances and counterexamples -/

theorem keyHex_valid : HYPERDRIVE_HASH_REGEX keyHex = true := by decide

/-- Claim C1, at a failing input: a detached fork of a source whose manifest has a
`forkOf` of its own is handed that `forkOf`. -/
theorem forkDrive_detached_inherits_forkOf :
    ∃ dst, forkDrive forkEnv (.str keyHex) [("detached".toList, .bool true)] = .ok dst ∧
      getProp dst "forkOf".toList = .str ("hyper://".toList ++ otherHex ++ "/".toList) :=
  ⟨_, rfl, by decide⟩

theorem loadDrive_single_flight_witness :
    (∀ p, lookupPromise idleLoader.driveLoadPromises (toHex keyBytes) = some p →
      loadDrive exampleResolver idleLoader (some (.buf keyBytes)) = .ok (idleLoader, p)) ∧
    (lookupPromise idleLoader.driveLoadPromises (toHex keyBytes) = none →
      ∃ st1, loadDrive exampleResolver idleLoader (some (.buf keyBytes))
          = .ok (st1, idleLoader.promises) ∧
        st1.daemonCalls = idleLoader.daemonCalls ++
          [{ key := some (.buf keyBytes), version := .undefined, writable := .undefined }] ∧
        lookupPromise st1.driveLoadPromises (toHex keyBytes) = some idleLoader.promises ∧
        loadDrive exampleResolver st1 (some (.str (toHex keyBytes)))
          = .ok (st1, idleLoader.promises)) :=
  loadDrive_single_flight exampleResolver idleLoader keyBytes (.buf keyBytes)
    (.str (toHex keyBytes)) rfl (Or.inl rfl) (Or.inr rfl)

theorem pull_at_watermark_is_noop_witness :
    pullLatestDriveMeta pullEnvAt5 driveAt5 false =
      { drive := driveAt5, effects := [.version], value := none } ∧
    (pullLatestDriveMeta pullEnvAt6
        (pullLatestDriveMeta pullEnvRetitled driveAt5 false).drive false).effects = [.version] :=
  ⟨pull_at_watermark_is_noop.1 pullEnvAt5 driveAt5 false (.num 5) rfl rfl,
   ((pull_at_watermark_is_noop.2 pullEnvRetitled pullEnvAt6 driveAt5 false false rfl).2.2).resolve_right
     (by decide)⟩

theorem forkOf_same_identity_is_no_change_witness :
    isUrlsEq (.str ([] ++ keyHex ++ [])) (.str ("hyper://".toList ++ keyHex ++ "/".toList))
      = .bool true ∧
    (hasMetaChanged (setProp [] "forkOf".toList (.str ([] ++ keyHex ++ [])))
        (setProp [] "forkOf".toList (.str ("hyper://".toList ++ keyHex ++ "/".toList)))).1 =
      (hasMetaChanged (setProp [] "forkOf".toList .undefined)
        (setProp [] "forkOf".toList .undefined)).1 :=
  forkOf_same_identity_is_no_change keyHex [] [] "hyper://".toList "/".toList [] []
    (by decide) (by decide) (by decide) (by decide) (by decide) (by decide)

/-- Claim C5, counterexample: the manifest has the empty string as title and the
stored record has no title, so the candidate differs from the stored record
in the field `title`; the version has moved from 5 to 6; yet nothing is
written and nothing is emitted. -/
theorem pull_skips_falsy_difference :
    getProp (candidateDetails (pullEnvAt6.manifest.getD []) [("writable".toList, .bool true),
        ("mtime".toList, .num 1000)] driveAt5.writable false pullEnvAt6.now) "title".toList
      = .str [] ∧
    getProp [("writable".toList, .bool true), ("mtime".toList, JsVal.num 1000)] "title".toList
      = .undefined ∧
    pullLatestDriveMeta pullEnvAt6 driveAt5 false =
      { drive := { driveAt5 with lastMetaPullVersion := .num 6 },
        effects := [.version, .assetsHasUpdates (.num 5), .readManifest, .getMeta keyHex],
        value := none } := by
  refine ⟨by decide, by decide, ?_⟩
  decide

/-- The key list of `hasMetaChanged` has no `type`: a candidate that differs
from the stored record in `type` only is not written. -/
theorem pull_skips_type_difference :
    pullLatestDriveMeta pullEnvRetyped driveAt5 false =
      { drive := { driveAt5 with lastMetaPullVersion := .num 6 },
        effects := [.version, .assetsHasUpdates (.num 5), .readManifest, .getMeta keyHex],
        value := none } := by
  decide

/-- Two equal `forkOf` strings in which `isUrlsEqRe` finds nothing compare as
changed: the record is written and the event emitted although no field
differs. -/
theorem pull_rewrites_plain_forkOf :
    ∃ stored emitted previous,
      (pullLatestDriveMeta pullEnvPlainForkOf driveAt5 false).effects =
        [.version, .assetsHasUpdates (.num 5), .readManifest, .getMeta keyHex,
         .setMeta keyHex stored, .emitUpdated keyHex emitted previous] :=
  ⟨_, _, _, rfl⟩

theorem pull_persists_iff_records_differ_witness :
    ∃ stored previous : JsObj,
      (∀ k, normalise (getProp stored k) =
        normalise (getProp (candidateDetails (pullEnvRetitled.manifest.getD [])
          [("title".toList, .str "Old".toList), ("writable".toList, .bool true),
            ("mtime".toList, .num 1000)] driveAt5.writable false pullEnvRetitled.now) k)) ∧
      (∀ k, normalise (getProp previous k) =
        normalise (getProp [("title".toList, .str "Old".toList), ("writable".toList, .bool true),
            ("mtime".toList, JsVal.num 1000)] k)) ∧
      (pullLatestDriveMeta pullEnvRetitled driveAt5 false).effects =
        [.version] ++
        (if truthy driveAt5.lastMetaPullVersion then
          [.assetsHasUpdates driveAt5.lastMetaPullVersion] else []) ++
        [.readManifest, .getMeta (toHex driveAt5.key)] ++
        (if recordsDiffer (candidateDetails (pullEnvRetitled.manifest.getD [])
            [("title".toList, .str "Old".toList), ("writable".toList, .bool true),
              ("mtime".toList, .num 1000)] driveAt5.writable false pullEnvRetitled.now)
            [("title".toList, .str "Old".toList), ("writable".toList, .bool true),
              ("mtime".toList, .num 1000)] then
          [.setMeta (toHex driveAt5.key) stored,
           .emitUpdated (toHex driveAt5.key)
              (setProp stored "url".toList (.str ("hyper://".toList ++ toHex driveAt5.key)))
              previous]
         else []) ∧
      (pullLatestDriveMeta pullEnvRetitled driveAt5 false).value =
        (if recordsDiffer (candidateDetails (pullEnvRetitled.manifest.getD [])
            [("title".toList, .str "Old".toList), ("writable".toList, .bool true),
              ("mtime".toList, .num 1000)] driveAt5.writable false pullEnvRetitled.now)
            [("title".toList, .str "Old".toList), ("writable".toList, .bool true),
              ("mtime".toList, .num 1000)] then
          some (setProp stored "url".toList (.str ("hyper://".toList ++ toHex driveAt5.key)))
         else none) :=
  pull_persists_iff_records_differ pullEnvRetitled driveAt5 false (.num 6)
    [("title".toList, .str "Old".toList), ("writable".toList, .bool true),
      ("mtime".toList, .num 1000)]
    rfl (by decide) rfl rfl (by decide) (Or.inl (by decide)) (Or.inl (by decide))

/-- Claim C6, counterexample: the source is addressed by a URL whose host is a name
that resolves to the key `keyHex`; the `forkOf` written is that URL, in which
no key is found. -/
theorem forkDrive_by_name_keeps_name :
    getOrLoadDrive forkEnv (.str "hyper://example.com/".toList)
      = forkEnv.session (.str keyHex) ∧
    isUrlsEqRe "hyper://example.com/".toList = none ∧
    ∃ dst, forkDrive forkEnv (.str "hyper://example.com/".toList) [] = .ok dst ∧
      getProp dst "forkOf".toList = .str "hyper://example.com/".toList :=
  ⟨rfl, by decide, _, rfl, by decide⟩

theorem forkDrive_forkOf_embeds_key_witness :
    (∃ dst, forkDrive forkEnv (.str keyHex) [] = .ok dst ∧
      getProp dst "forkOf".toList = .str ("hyper://".toList ++ keyHex ++ "/".toList)) ∧
    (∀ K : List (Fin 256), toHex K = keyHex →
      ∃ dst, forkDrive forkEnv (.buf K) [] = .ok dst ∧
        getProp dst "forkOf".toList = .str ("hyper://".toList ++ keyHex ++ "/".toList)) ∧
    (∀ path : Str,
      ∃ dst, forkDrive forkEnv (.str ("hyper://".toList ++ keyHex ++ "/".toList ++ path)) []
          = .ok dst ∧
        getProp dst "forkOf".toList
          = .str ("hyper://".toList ++ keyHex ++ "/".toList ++ path)) ∧
    (∀ path : Str,
      getOrLoadDrive forkEnv (.str ("hyper://".toList ++ keyHex ++ "/".toList ++ path))
        = .ok (some { manifest := some forkedManifest }) ∧
      isUrlsEqRe ("hyper://".toList ++ keyHex ++ "/".toList ++ path) = some keyHex) ∧
    (∀ name path key : Str, (∀ c ∈ name, c ≠ '/') → HYPERDRIVE_HASH_REGEX name = false →
      forkEnv.resolveName name = .ok key → HYPERDRIVE_HASH_REGEX key = true →
      forkEnv.session (.str key) = .ok (some { manifest := some forkedManifest }) →
      ∃ dst, forkDrive forkEnv (.str ("hyper://".toList ++ name ++ "/".toList ++ path)) []
          = .ok dst ∧
        getProp dst "forkOf".toList =
          .str ("hyper://".toList ++ name ++ "/".toList ++ path)) :=
  forkDrive_forkOf_embeds_key forkEnv [] { manifest := some forkedManifest } keyHex
    keyHex_valid rfl rfl (by decide)

/-- Claim C7, counterexample: `12abc` is neither `latest` nor a numeric string, yet
`getDriveCheckout` does not fail on it: it returns the live session. -/
theorem getDriveCheckout_accepts_leading_digits :
    (getDriveCheckout checkoutEnv driveAt5 (.str "12abc".toList)).outcome =
      .ok { isHistoric := false, checkoutFS := .live driveAt5 } ∧
    (getDriveCheckout checkoutEnv driveAt5 (.str "12abc".toList)).calls = [] :=
  ⟨rfl, rfl⟩

theorem getDriveCheckout_rejects_non_numeric_witness :
    (getDriveCheckout checkoutEnv driveAt5 (.str "abc".toList)).calls = [] ∧
    (getDriveCheckout checkoutEnv driveAt5 (.str "abc".toList)).outcome =
      .error (.error ("Invalid version identifier:".toList ++ toJsString (.str "abc".toList))) :=
  getDriveCheckout_rejects_non_numeric checkoutEnv driveAt5 (.str "abc".toList)
    (by decide) (by decide) (by decide) (by decide)

/-- Claim C8, counterexample: the drive is at version 5 and version 7 is asked for;
no session is opened and the result is the live session, not a historic
one. -/
theorem getDriveCheckout_future_version_is_live :
    (getDriveCheckout checkoutEnv driveAt5 (.str "7".toList)).calls = [] ∧
    (getDriveCheckout checkoutEnv driveAt5 (.str "7".toList)).outcome =
      .ok { isHistoric := false, checkoutFS := .live driveAt5 } :=
  ⟨rfl, rfl⟩

theorem getDriveCheckout_numeric_witness :
    (digitsValue 10 "3".toList ≤ 5 →
      (getDriveCheckout checkoutEnv driveAt5 (.str "3".toList)).calls =
        [{ key := some (.buf driveAt5.key), version := .str "3".toList, writable := .bool false }] ∧
      (getDriveCheckout checkoutEnv driveAt5 (.str "3".toList)).outcome =
        .ok { isHistoric := true, checkoutFS := .opened 1 }) ∧
    (5 < digitsValue 10 "3".toList →
      (getDriveCheckout checkoutEnv driveAt5 (.str "3".toList)).calls = [] ∧
      (getDriveCheckout checkoutEnv driveAt5 (.str "3".toList)).outcome =
        .ok { isHistoric := false, checkoutFS := .live driveAt5 }) :=
  getDriveCheckout_numeric checkoutEnv driveAt5 "3".toList 5 1 (by decide) (by decide)
    (by decide) rfl rfl

theorem forkDrive_never_copies_author_witness :
    ∃ dst, forkDrive forkEnv (.str keyHex) [("title".toList, .str "Copy".toList)] = .ok dst ∧
      getOwn dst "author".toList = none ∧ getProp dst "author".toList = .undefined :=
  ⟨_, rfl, (forkDrive_never_copies_author forkEnv (.str keyHex)
    [("title".toList, .str "Copy".toList)]).1 _ rfl⟩

theorem fromURLToKey_accepts_hyper_and_dat_witness :
    fromURLToKey exampleResolver
        (.str ("hyper://".toList ++ keyHex ++ "/".toList ++ "index.json".toList)) false
      = .ok (.str keyHex) ∧
    fromURLToKey exampleResolver
        (.str ("dat://".toList ++ keyHex ++ "/".toList ++ "index.json".toList)) false
      = .ok (.str keyHex) ∧
    fromURLToKey exampleResolver (.str keyHex) false = .ok (.str keyHex) ∧
    (∀ scheme rest : Str, (∀ c ∈ scheme, c ≠ ':') →
      scheme ≠ "hyper".toList → scheme ≠ "dat".toList →
      ∃ msg, fromURLToKey exampleResolver (.str (scheme ++ "://".toList ++ rest)) false
        = .error (.invalidURL msg)) :=
  fromURLToKey_accepts_hyper_and_dat exampleResolver keyHex "index.json".toList false keyHex_valid

end Drives
